import Mathlib

/-!
Verification of the chat-session migration tool (`move-chat.py`).

The tool moves a chat session (a `<session-id>.jsonl` log file, an optional
`<session-id>/` auxiliary directory, and an index entry in
`sessions-index.json`) from one project directory to another, with a
best-effort rollback on failure.

Shallow embedding: the filesystem is a finite map from project-directory
path to directory contents; a directory holds an optional parsed
`sessions-index.json` (JSON serialization by `json.dump` is deterministic,
so comparing parsed values models comparing file bytes), a map from session
id to the bytes of its `.jsonl` log file, and a map from session id to the
(opaque) contents of its auxiliary directory tree.  Fallible I/O primitives
consult an injected fault schedule `sched : Nat → Bool` indexed by the
number of primitives attempted so far; a scheduled fault makes the
primitive raise without mutating anything.  `shutil.copy2` raising
`SameFileError` on identical source/destination paths and
`shutil.copytree` raising `FileExistsError` on an existing destination are
modelled explicitly.  Every successfully executed mutating primitive is
recorded in an event trace, used to state temporal claims.  All calls to
`datetime.now()` within one invocation are modelled by a single `now : Nat`
parameter (sub-call clock drift is abstracted away; timestamps are
abstract clock values).
-/

set_option autoImplicit false

namespace MoveChat

/-- One entry of `sessions-index.json` (see the schema in the tool's docs):
session id, absolute log-file path, owning project path, optional summary,
optional first-prompt excerpt, creation and modification timestamps. -/
structure SessionEntry where
  sessionId : String
  fullPath : String
  projectPath : String
  summary : Option String
  firstPrompt : Option String
  created : Nat
  modified : Nat
deriving Repr, DecidableEq

/-- The parsed contents of a `sessions-index.json` file. -/
structure SessionsIndex where
  version : Nat
  entries : List SessionEntry
  originalPath : String
deriving Repr, DecidableEq

/-- Finite map from a string key to opaque string contents, as an
association list (first binding wins; our operations keep keys unique). -/
abbrev Files := List (String × String)

def getF (files : Files) (k : String) : Option String :=
  match files with
  | [] => none
  | (k₁, v) :: rest => if k₁ = k then some v else getF rest k

def setF (files : Files) (k v : String) : Files :=
  match files with
  | [] => [(k, v)]
  | (k₁, v₁) :: rest => if k₁ = k then (k, v) :: rest else (k₁, v₁) :: setF rest k v

def delF (files : Files) (k : String) : Files :=
  match files with
  | [] => []
  | (k₁, v₁) :: rest => if k₁ = k then delF rest k else (k₁, v₁) :: delF rest k

/-- Contents of one project directory: the optional index file, the
`<sid>.jsonl` log files keyed by session id, and the `<sid>/` auxiliary
directory trees keyed by session id (tree contents opaque). -/
structure ProjectDir where
  indexFile : Option SessionsIndex
  jsonl : Files
  subdir : Files
deriving Repr, DecidableEq

/-- A directory freshly created by `mkdir`: no index file, no contents. -/
def emptyProjectDir : ProjectDir := { indexFile := none, jsonl := [], subdir := [] }

/-- The filesystem: map from project-directory path to its contents;
a missing key is a directory that does not exist. -/
abbrev FS := List (String × ProjectDir)

def getDir (fs : FS) (dir : String) : Option ProjectDir :=
  match fs with
  | [] => none
  | (k, d) :: rest => if k = dir then some d else getDir rest dir

def setDir (fs : FS) (dir : String) (d : ProjectDir) : FS :=
  match fs with
  | [] => [(dir, d)]
  | (k, d₁) :: rest => if k = dir then (dir, d) :: rest else (k, d₁) :: setDir rest dir d

def modifyDir (fs : FS) (dir : String) (f : ProjectDir → ProjectDir) : FS :=
  match getDir fs dir with
  | none => fs
  | some d => setDir fs dir (f d)

/-- Contents of `<dir>/<sid>.jsonl`, or `none` if absent. -/
def getJsonl (fs : FS) (dir sid : String) : Option String :=
  (getDir fs dir).bind (fun d => getF d.jsonl sid)

/-- Contents of the auxiliary directory `<dir>/<sid>/`, or `none` if absent. -/
def getSubdir (fs : FS) (dir sid : String) : Option String :=
  (getDir fs dir).bind (fun d => getF d.subdir sid)

/-- The parsed index file of `dir`, or `none` if the file does not exist. -/
def getIndexFile (fs : FS) (dir : String) : Option SessionsIndex :=
  (getDir fs dir).bind (fun d => d.indexFile)

def writeJsonl (fs : FS) (dir sid content : String) : FS :=
  modifyDir fs dir (fun d => { d with jsonl := setF d.jsonl sid content })

def writeSubdir (fs : FS) (dir sid content : String) : FS :=
  modifyDir fs dir (fun d => { d with subdir := setF d.subdir sid content })

def removeJsonl (fs : FS) (dir sid : String) : FS :=
  modifyDir fs dir (fun d => { d with jsonl := delF d.jsonl sid })

def removeSubdir (fs : FS) (dir sid : String) : FS :=
  modifyDir fs dir (fun d => { d with subdir := delF d.subdir sid })

/-! ## The pure functions of `move-chat.py` -/

/-- `encode_path` (move-chat.py:22): `path.replace("/", "-")` followed by
`re.sub(r"[@.]", "-", encoded)`.  A single-character `str.replace` and a
single-character-class `re.sub` are both per-character substitutions. -/
def encode_path (path : String) : String :=
  let encoded := String.mk (path.data.map (fun c => if c = '/' then '-' else c))
  String.mk (encoded.data.map (fun c => if c = '@' || c = '.' then '-' else c))

/-- `get_project_dir` (move-chat.py:30): `PROJECTS_DIR / encode_path(path)`
where `PROJECTS_DIR = Path.home() / ".claude" / "projects"`; the home
directory is a parameter of the model. -/
def get_project_dir (home : String) (project_path : String) : String :=
  home ++ "/.claude/projects/" ++ encode_path project_path

/-- `load_sessions_index` (move-chat.py:36).  Takes the directory contents
(`none` when the directory itself does not exist, so the index path does
not exist either).  `original_path or ""` in Python collapses both `None`
and `""` to `""`, which is exactly `Option.getD` here since
`(some "").getD "" = ""`. -/
def load_sessions_index (dir : Option ProjectDir) (original_path : Option String) :
    SessionsIndex :=
  match dir with
  | none => { version := 1, entries := [], originalPath := original_path.getD "" }
  | some d =>
    match d.indexFile with
    | none => { version := 1, entries := [], originalPath := original_path.getD "" }
    | some idx => idx

/-- Helper for `find_session_in_index`: the `enumerate` loop starting at
position `i`. -/
def findFrom (entries : List SessionEntry) (session_id : String) (i : Nat) :
    Option (Nat × SessionEntry) :=
  match entries with
  | [] => none
  | e :: rest =>
    if e.sessionId = session_id then some (i, e) else findFrom rest session_id (i + 1)

/-- `find_session_in_index` (move-chat.py:52): linear scan, first match wins,
returns the position and the entry. -/
def find_session_in_index (index : SessionsIndex) (session_id : String) :
    Option (Nat × SessionEntry) :=
  findFrom index.entries session_id 0

/-- `create_session_entry` (move-chat.py:60): minimal entry for an unindexed
session.  Both `datetime.now()` calls are modelled by `now`. -/
def create_session_entry (now : Nat) (session_id : String) (project_dir : String)
    (project_path : String) : SessionEntry :=
  { sessionId := session_id
    fullPath := project_dir ++ "/" ++ session_id ++ ".jsonl"
    projectPath := project_path
    summary := some "Migrated session"
    firstPrompt := none
    created := now
    modified := now }

/-- `save_sessions_index` (move-chat.py:45) as a filesystem update: overwrite
`sessions-index.json` in `dir`.  The enclosing directory always exists at
every call site (validated or created beforehand), so the missing-directory
branch of `modifyDir` is never reached. -/
def save_sessions_index (fs : FS) (dir : String) (index : SessionsIndex) : FS :=
  modifyDir fs dir (fun d => { d with indexFile := some index })

/-! ## The migration transaction -/

/-- Mutating filesystem primitives, as recorded in the event trace.  Each
carries the directory it acts on (and the session id where relevant). -/
inductive Event where
  | mkdirDest : String → Event
  | copyLog : String → String → Event
  | copyTree : String → String → Event
  | saveIndex : String → Event
  | deleteLog : String → String → Event
  | deleteTree : String → String → Event
deriving Repr, DecidableEq

/-- Machine state threaded through the transaction: the filesystem, the
trace of successfully executed mutating primitives, and the number of
primitives attempted so far (the fault-schedule cursor). -/
structure Machine where
  fs : FS
  trace : List Event
  ops : Nat
deriving Repr, DecidableEq

/-- Run one fallible mutating primitive: if the schedule faults at the
current cursor the primitive raises (state unchanged, cursor advanced),
otherwise it applies `f` and records `ev`. -/
def attempt (sched : Nat → Bool) (m : Machine) (ev : Event) (f : FS → FS) :
    Except Machine Machine :=
  if sched m.ops then Except.error { m with ops := m.ops + 1 }
  else Except.ok { fs := f m.fs, trace := m.trace ++ [ev], ops := m.ops + 1 }

/-- Exception-propagating sequencing on `Except Machine Machine`. -/
def andThen (x : Except Machine Machine) (f : Machine → Except Machine Machine) :
    Except Machine Machine :=
  match x with
  | Except.error m => Except.error m
  | Except.ok m => f m

/-- Step 1 of the try block (move-chat.py:216): copy the log file if the
source one exists (otherwise only a warning is printed).  `shutil.copy2`
raises `SameFileError` when source and destination are the same path. -/
def copyLogStep (sched : Nat → Bool) (source_dir dest_dir session_id : String)
    (m : Machine) : Except Machine Machine :=
  match getJsonl m.fs source_dir session_id with
  | none => Except.ok m
  | some content =>
    if source_dir = dest_dir then Except.error { m with ops := m.ops + 1 }
    else attempt sched m (Event.copyLog dest_dir session_id)
      (fun fs => writeJsonl fs dest_dir session_id content)

/-- Step 2 of the try block (move-chat.py:224): copy the auxiliary directory
if it exists.  `shutil.copytree` raises `FileExistsError` when the
destination directory already exists. -/
def copyTreeStep (sched : Nat → Bool) (source_dir dest_dir session_id : String)
    (m : Machine) : Except Machine Machine :=
  match getSubdir m.fs source_dir session_id with
  | none => Except.ok m
  | some content =>
    if (getSubdir m.fs dest_dir session_id).isSome then
      Except.error { m with ops := m.ops + 1 }
    else attempt sched m (Event.copyTree dest_dir session_id)
      (fun fs => writeSubdir fs dest_dir session_id content)

/-- Persist an index file (steps 3 and 4 of the try block, and the index
restore in rollback). -/
def saveIndexStep (sched : Nat → Bool) (dir : String) (index : SessionsIndex)
    (m : Machine) : Except Machine Machine :=
  attempt sched m (Event.saveIndex dir) (fun fs => save_sessions_index fs dir index)

/-- Step 5a of the try block (move-chat.py:245): delete the source log file
if it exists; also used for the destination log file in rollback. -/
def deleteLogStep (sched : Nat → Bool) (dir session_id : String) (m : Machine) :
    Except Machine Machine :=
  match getJsonl m.fs dir session_id with
  | none => Except.ok m
  | some _ => attempt sched m (Event.deleteLog dir session_id)
      (fun fs => removeJsonl fs dir session_id)

/-- Step 5b of the try block (move-chat.py:250): delete the source auxiliary
directory if it exists; also used for the destination one in rollback. -/
def deleteTreeStep (sched : Nat → Bool) (dir session_id : String) (m : Machine) :
    Except Machine Machine :=
  match getSubdir m.fs dir session_id with
  | none => Except.ok m
  | some _ => attempt sched m (Event.deleteTree dir session_id)
      (fun fs => removeSubdir fs dir session_id)

/-- The try block of `move_session` (move-chat.py:214-253): copy log file,
copy auxiliary directory, save the destination index (with the staged entry
appended), save the source index (with the located entry removed) when the
session was found in the source index, then delete the source artifacts.
Existence checks read the machine state current at each step, as the Python
code re-queries the filesystem. -/
def tryPhase (sched : Nat → Bool) (source_dir dest_dir session_id : String)
    (dest_index_new : SessionsIndex) (source_index_new : Option SessionsIndex)
    (m : Machine) : Except Machine Machine :=
  andThen (copyLogStep sched source_dir dest_dir session_id m) (fun m₁ =>
  andThen (copyTreeStep sched source_dir dest_dir session_id m₁) (fun m₂ =>
  andThen (saveIndexStep sched dest_dir dest_index_new m₂) (fun m₃ =>
  andThen (match source_index_new with
           | some idx => saveIndexStep sched source_dir idx m₃
           | none => Except.ok m₃) (fun m₄ =>
  andThen (deleteLogStep sched source_dir session_id m₄) (fun m₅ =>
  deleteTreeStep sched source_dir session_id m₅)))))

/-- The entries filter used by rollback (move-chat.py:272-275): keep the
entries whose session id differs from the moved one. -/
def filterIndex (index : SessionsIndex) (session_id : String) : SessionsIndex :=
  { index with entries := index.entries.filter (fun s => s.sessionId != session_id) }

/-- The rollback block of `move_session` (move-chat.py:263-276): delete the
destination log file if it exists, delete the destination auxiliary
directory if it exists, then re-load the destination index (with no
fallback path), filter out the session id and save it back. -/
def rollbackPhase (sched : Nat → Bool) (dest_dir session_id : String) (m : Machine) :
    Except Machine Machine :=
  andThen (deleteLogStep sched dest_dir session_id m) (fun m₁ =>
  andThen (deleteTreeStep sched dest_dir session_id m₁) (fun m₂ =>
  saveIndexStep sched dest_dir
    (filterIndex (load_sessions_index (getDir m₂.fs dest_dir) none) session_id) m₂))

/-- Outcome of one invocation of `move_session`: the validation failures
(each `sys.exit(1)`), the dry-run return, success, the two rollback
outcomes (both `sys.exit(1)`), and an uncaught exception outside the try
block (a fault in the destination `mkdir`). -/
inductive MoveResult where
  | sourceProjectMissing
  | sessionNotFound
  | duplicateSession
  | dryRunDone
  | success
  | rolledBack
  | rollbackFailed
  | ioError
deriving Repr, DecidableEq

/-- `move_session` (move-chat.py:113-283).  Mirrors the source line by line:
validate the source directory, create the destination directory when
missing (skipped in dry-run), load the source index and locate the session
(synthesizing an entry via `create_session_entry` when only the log file
exists), load the destination index and reject duplicates, stage the new
entry, return before mutating in dry-run, else run the try block and on
exception the rollback block. -/
def move_session (home : String) (session_id source_path dest_path : String)
    (dry_run : Bool) (now : Nat) (sched : Nat → Bool) (fs₀ : FS) :
    MoveResult × Machine :=
  let source_dir := get_project_dir home source_path
  let dest_dir := get_project_dir home dest_path
  let m₀ : Machine := { fs := fs₀, trace := [], ops := 0 }
  if (getDir fs₀ source_dir).isNone then (MoveResult.sourceProjectMissing, m₀)
  else
    match (if (getDir fs₀ dest_dir).isNone && !dry_run then
             attempt sched m₀ (Event.mkdirDest dest_dir)
               (fun fs => setDir fs dest_dir emptyProjectDir)
           else Except.ok m₀) with
    | Except.error m₁ => (MoveResult.ioError, m₁)
    | Except.ok m₁ =>
      let source_index := load_sessions_index (getDir m₁.fs source_dir) none
      let session_result := find_session_in_index source_index session_id
      match (match session_result with
             | none =>
               if (getJsonl m₁.fs source_dir session_id).isSome then
                 some (none, create_session_entry now session_id source_dir source_path)
               else none
             | some (i, e) => some (some i, e)) with
      | none => (MoveResult.sessionNotFound, m₁)
      | some (session_idx, session_data) =>
        let dest_index := load_sessions_index (getDir m₁.fs dest_dir) (some dest_path)
        if (find_session_in_index dest_index session_id).isSome then
          (MoveResult.duplicateSession, m₁)
        else
          let new_session_data := { session_data with
            fullPath := dest_dir ++ "/" ++ session_id ++ ".jsonl"
            projectPath := dest_path
            modified := now }
          if dry_run then (MoveResult.dryRunDone, m₁)
          else
            let dest_index_new :=
              { dest_index with entries := dest_index.entries ++ [new_session_data] }
            let source_index_new := session_idx.map (fun i =>
              { source_index with entries := source_index.entries.eraseIdx i })
            match tryPhase sched source_dir dest_dir session_id dest_index_new
                source_index_new m₁ with
            | Except.ok m₂ => (MoveResult.success, m₂)
            | Except.error m₂ =>
              match rollbackPhase sched dest_dir session_id m₂ with
              | Except.ok m₃ => (MoveResult.rolledBack, m₃)
              | Except.error m₃ => (MoveResult.rollbackFailed, m₃)


/-! ## Basic lemmas about the filesystem maps -/

theorem getF_setF (l : Files) (k k₁ v : String) :
    getF (setF l k v) k₁ = if k = k₁ then some v else getF l k₁ := by
  induction l with
  | nil => by_cases h : k = k₁ <;> simp [setF, getF, h]
  | cons p rest ih =>
    obtain ⟨k₂, v₂⟩ := p
    by_cases hk : k₂ = k
    · subst hk
      by_cases h : k₂ = k₁ <;> simp [setF, getF, h]
    · by_cases h : k₂ = k₁
      · subst h
        have : ¬ k = k₂ := fun hc => hk hc.symm
        simp [setF, getF, hk, this]
      · simp [setF, getF, hk, h, ih]

theorem getF_delF (l : Files) (k k₁ : String) :
    getF (delF l k) k₁ = if k = k₁ then none else getF l k₁ := by
  induction l with
  | nil => by_cases h : k = k₁ <;> simp [delF, getF, h]
  | cons p rest ih =>
    obtain ⟨k₂, v₂⟩ := p
    by_cases hk : k₂ = k
    · subst hk
      by_cases h : k₂ = k₁
      · subst h
        simp [delF, getF, ih]
      · simp [delF, getF, h, ih]
    · by_cases h : k₂ = k₁
      · subst h
        have : ¬ k = k₂ := fun hc => hk hc.symm
        simp [delF, getF, hk, this]
      · simp [delF, getF, hk, h, ih]

theorem getDir_setDir (fs : FS) (n m : String) (d : ProjectDir) :
    getDir (setDir fs n d) m = if n = m then some d else getDir fs m := by
  induction fs with
  | nil => by_cases h : n = m <;> simp [setDir, getDir, h]
  | cons p rest ih =>
    obtain ⟨k, d₁⟩ := p
    by_cases hk : k = n
    · subst hk
      by_cases h : k = m <;> simp [setDir, getDir, h]
    · by_cases h : k = m
      · subst h
        have : ¬ n = k := fun hc => hk hc.symm
        simp [setDir, getDir, hk, this]
      · simp [setDir, getDir, hk, h, ih]

theorem getDir_modifyDir (fs : FS) (n m : String) (f : ProjectDir → ProjectDir) :
    getDir (modifyDir fs n f) m = if n = m then (getDir fs n).map f else getDir fs m := by
  unfold modifyDir
  by_cases h : n = m
  · subst h
    cases hd : getDir fs n <;> simp [getDir_setDir, hd]
  · cases hd : getDir fs n <;> simp [getDir_setDir, hd, h]

theorem getJsonl_modifyDir_preserve (fs : FS) (n : String) (f : ProjectDir → ProjectDir)
    (h : ∀ d, (f d).jsonl = d.jsonl) (dir s : String) :
    getJsonl (modifyDir fs n f) dir s = getJsonl fs dir s := by
  unfold getJsonl
  rw [getDir_modifyDir]
  by_cases hn : n = dir
  · subst hn
    cases hd : getDir fs n <;> simp [Option.map, h]
  · simp [hn]

theorem getSubdir_modifyDir_preserve (fs : FS) (n : String) (f : ProjectDir → ProjectDir)
    (h : ∀ d, (f d).subdir = d.subdir) (dir s : String) :
    getSubdir (modifyDir fs n f) dir s = getSubdir fs dir s := by
  unfold getSubdir
  rw [getDir_modifyDir]
  by_cases hn : n = dir
  · subst hn
    cases hd : getDir fs n <;> simp [Option.map, h]
  · simp [hn]

theorem getIndexFile_modifyDir_preserve (fs : FS) (n : String) (f : ProjectDir → ProjectDir)
    (h : ∀ d, (f d).indexFile = d.indexFile) (dir : String) :
    getIndexFile (modifyDir fs n f) dir = getIndexFile fs dir := by
  unfold getIndexFile
  rw [getDir_modifyDir]
  by_cases hn : n = dir
  · subst hn
    cases hd : getDir fs n <;> simp [Option.map, h]
  · simp [hn]

theorem getJsonl_modifyDir_ne (fs : FS) (n : String) (f : ProjectDir → ProjectDir)
    (dir s : String) (h : n ≠ dir) :
    getJsonl (modifyDir fs n f) dir s = getJsonl fs dir s := by
  unfold getJsonl
  rw [getDir_modifyDir]
  simp [h]

theorem getSubdir_modifyDir_ne (fs : FS) (n : String) (f : ProjectDir → ProjectDir)
    (dir s : String) (h : n ≠ dir) :
    getSubdir (modifyDir fs n f) dir s = getSubdir fs dir s := by
  unfold getSubdir
  rw [getDir_modifyDir]
  simp [h]

theorem getJsonl_save (fs : FS) (dir : String) (idx : SessionsIndex) (d s : String) :
    getJsonl (save_sessions_index fs dir idx) d s = getJsonl fs d s := by
  unfold save_sessions_index
  exact getJsonl_modifyDir_preserve fs dir
    (fun d₀ => { d₀ with indexFile := some idx }) (fun _ => rfl) d s

theorem getSubdir_save (fs : FS) (dir : String) (idx : SessionsIndex) (d s : String) :
    getSubdir (save_sessions_index fs dir idx) d s = getSubdir fs d s := by
  unfold save_sessions_index
  exact getSubdir_modifyDir_preserve fs dir
    (fun d₀ => { d₀ with indexFile := some idx }) (fun _ => rfl) d s

theorem getJsonl_writeSubdir (fs : FS) (dir sid c : String) (d s : String) :
    getJsonl (writeSubdir fs dir sid c) d s = getJsonl fs d s := by
  unfold writeSubdir
  exact getJsonl_modifyDir_preserve fs dir
    (fun d₀ => { d₀ with subdir := setF d₀.subdir sid c }) (fun _ => rfl) d s

theorem getSubdir_writeJsonl (fs : FS) (dir sid c : String) (d s : String) :
    getSubdir (writeJsonl fs dir sid c) d s = getSubdir fs d s := by
  unfold writeJsonl
  exact getSubdir_modifyDir_preserve fs dir
    (fun d₀ => { d₀ with jsonl := setF d₀.jsonl sid c }) (fun _ => rfl) d s

theorem getJsonl_removeSubdir (fs : FS) (dir sid : String) (d s : String) :
    getJsonl (removeSubdir fs dir sid) d s = getJsonl fs d s := by
  unfold removeSubdir
  exact getJsonl_modifyDir_preserve fs dir
    (fun d₀ => { d₀ with subdir := delF d₀.subdir sid }) (fun _ => rfl) d s

theorem getSubdir_removeJsonl (fs : FS) (dir sid : String) (d s : String) :
    getSubdir (removeJsonl fs dir sid) d s = getSubdir fs d s := by
  unfold removeJsonl
  exact getSubdir_modifyDir_preserve fs dir
    (fun d₀ => { d₀ with jsonl := delF d₀.jsonl sid }) (fun _ => rfl) d s

/-! ## C8: the path encoder -/

/-- C8 — For every input string, `encode_path` is a deterministic total
function that returns the input with every `'/'` replaced by a hyphen and
then every `'@'` or `'.'` replaced by a hyphen, leaving all other
characters unchanged: character-by-character it is exactly the map sending
`'/'`, `'@'`, `'.'` to `'-'` and fixing every other character (determinism
and totality are immediate since it is a pure function). -/
theorem encode_path_spec (s : String) :
    encode_path s =
      String.mk (s.data.map (fun c => if c = '/' ∨ c = '@' ∨ c = '.' then '-' else c)) := by
  show String.mk (((s.data.map (fun c => if c = '/' then '-' else c))).map
      (fun c => if c = '@' || c = '.' then '-' else c)) =
    String.mk (s.data.map (fun c => if c = '/' ∨ c = '@' ∨ c = '.' then '-' else c))
  rw [List.map_map]
  refine congrArg String.mk (List.map_congr_left ?_)
  intro c _
  by_cases h₁ : c = '/'
  · simp [h₁, Function.comp]
  · by_cases h₂ : c = '@'
    · simp [h₂, Function.comp]
    · by_cases h₃ : c = '.'
      · simp [h₁, h₂, h₃, Function.comp]
      · simp [h₁, h₂, h₃, Function.comp]

/-! ## C7: loading a missing index -/

/-- C7 — For every project directory that contains no `sessions-index.json`
file, loading the index does not fail and returns an index with version 1,
an empty entries list, and `originalPath` equal to the supplied fallback
project path, or the empty string when no fallback is supplied. -/
theorem load_sessions_index_missing (d : ProjectDir) (fallback : Option String)
    (h : d.indexFile = none) :
    load_sessions_index (some d) fallback =
      { version := 1, entries := [], originalPath := fallback.getD "" } := by
  simp [load_sessions_index, h]

/-- Witness for C7: a concrete directory with no index file and fallback
`"/p"` loads as the empty index with `originalPath = "/p"`. -/
theorem load_sessions_index_missing_witness :
    ProjectDir.indexFile { indexFile := none, jsonl := [("x", "y")], subdir := [] } = none ∧
    load_sessions_index (some { indexFile := none, jsonl := [("x", "y")], subdir := [] })
        (some "/p") =
      { version := 1, entries := [], originalPath := (some "/p").getD "" } :=
  ⟨rfl, load_sessions_index_missing _ (some "/p") rfl⟩


/-! ## C6: dry-run performs no filesystem mutation -/

/-- C6 — With dry-run enabled, the move performs no filesystem mutation in
any scenario (session indexed, unindexed, destination directory missing,
or any validation failure): the final filesystem is exactly the initial
one and no mutating primitive was executed. -/
theorem move_session_dry_run_noop (home session_id source_path dest_path : String)
    (now : Nat) (sched : Nat → Bool) (fs₀ : FS) :
    (move_session home session_id source_path dest_path true now sched fs₀).2.fs = fs₀ ∧
    (move_session home session_id source_path dest_path true now sched fs₀).2.trace = [] := by
  simp only [move_session, Bool.not_true, Bool.and_false, Bool.false_eq_true, if_false]
  split
  · exact ⟨rfl, rfl⟩
  · split
    · exact ⟨rfl, rfl⟩
    · split
      · exact ⟨rfl, rfl⟩
      · exact ⟨rfl, rfl⟩

/-! ## C3: validation failures mutate nothing -/

/-- C3 — Whenever a move aborts with `SessionNotFound` or
`DuplicateSession`, neither index file has been modified, no log file or
auxiliary directory has been copied, and nothing has been deleted: every
project directory is byte-identical to before, except that the destination
directory may have been created empty (directory creation is step 1 of the
transaction and precedes the checks; an empty directory has no index file
and no contents). -/
theorem move_session_validation_no_mutation
    (home session_id source_path dest_path : String) (dry_run : Bool) (now : Nat)
    (sched : Nat → Bool) (fs₀ : FS) (res : MoveResult) (m' : Machine)
    (hm : move_session home session_id source_path dest_path dry_run now sched fs₀ =
      (res, m'))
    (h : res = MoveResult.sessionNotFound ∨ res = MoveResult.duplicateSession) :
    ∀ n, getDir m'.fs n = getDir fs₀ n ∨
      (getDir fs₀ n = none ∧ getDir m'.fs n = some emptyProjectDir) := by
  simp only [move_session] at hm
  split at hm
  · simp only [Prod.mk.injEq] at hm
    obtain ⟨rfl, rfl⟩ := hm
    rcases h with h | h <;> simp at h
  · split at hm
    case h_1 m₁ heq =>
      -- the destination mkdir raised: result is ioError, contradicting h
      simp only [Prod.mk.injEq] at hm
      obtain ⟨rfl, rfl⟩ := hm
      rcases h with h | h <;> simp at h
    case h_2 m₁ heq =>
      -- `m₁` is either the initial machine or the initial one after mkdir
      have hm₁ : m₁.fs = fs₀ ∨
          (getDir fs₀ (get_project_dir home dest_path) = none ∧
            m₁.fs = setDir fs₀ (get_project_dir home dest_path) emptyProjectDir) := by
        split at heq
        · unfold attempt at heq
          split at heq
          · exact absurd heq (by simp)
          · simp only [Except.ok.injEq] at heq
            subst heq
            right
            refine ⟨?_, rfl⟩
            next hcond _ =>
              simp only [Bool.and_eq_true, Option.isNone_iff_eq_none] at hcond
              exact hcond.1
        · simp only [Except.ok.injEq] at heq
          subst heq
          left
          rfl
      have goal_of : ∀ n, getDir m₁.fs n = getDir fs₀ n ∨
          (getDir fs₀ n = none ∧ getDir m₁.fs n = some emptyProjectDir) := by
        intro n
        rcases hm₁ with h₁ | ⟨hnone, h₁⟩
        · left
          rw [h₁]
        · by_cases hn : get_project_dir home dest_path = n
          · subst hn
            right
            refine ⟨hnone, ?_⟩
            rw [h₁, getDir_setDir]
            simp
          · left
            rw [h₁, getDir_setDir]
            simp [hn]
      split at hm
      · simp only [Prod.mk.injEq] at hm
        obtain ⟨rfl, rfl⟩ := hm
        exact goal_of
      · split at hm
        · simp only [Prod.mk.injEq] at hm
          obtain ⟨rfl, rfl⟩ := hm
          exact goal_of
        · split at hm
          · simp only [Prod.mk.injEq] at hm
            obtain ⟨rfl, rfl⟩ := hm
            rcases h with h | h <;> simp at h
          · split at hm
            · simp only [Prod.mk.injEq] at hm
              obtain ⟨rfl, rfl⟩ := hm
              rcases h with h | h <;> simp at h
            · split at hm
              · simp only [Prod.mk.injEq] at hm
                obtain ⟨rfl, rfl⟩ := hm
                rcases h with h | h <;> simp at h
              · simp only [Prod.mk.injEq] at hm
                obtain ⟨rfl, rfl⟩ := hm
                rcases h with h | h <;> simp at h


/-! ## Concrete example states used by the witnesses -/

/-- An indexed session entry used in concrete witness runs. -/
def exEntry : SessionEntry :=
  { sessionId := "s1", fullPath := "H/.claude/projects/a/s1.jsonl", projectPath := "a"
    summary := some "Fix bug", firstPrompt := none, created := 10, modified := 20 }

/-- A source project directory holding the indexed session `s1` with a log
file and an auxiliary directory. -/
def exSrcPD : ProjectDir :=
  { indexFile := some { version := 1, entries := [exEntry], originalPath := "a" }
    jsonl := [("s1", "LOG")], subdir := [("s1", "TREE")] }

/-- An existing destination project directory with no index file. -/
def exDstPD : ProjectDir := { indexFile := none, jsonl := [], subdir := [] }

/-- A filesystem with the source project `a` and destination project `b`. -/
def exFS : FS := [(get_project_dir "H" "a", exSrcPD), (get_project_dir "H" "b", exDstPD)]

/-- Witness for C3: moving an unknown session id aborts with
`SessionNotFound` and the conclusion holds on a concrete filesystem. -/
theorem move_session_validation_no_mutation_witness :
    (move_session "H" "zz" "a" "b" false 0 (fun _ => false) exFS).1 =
      MoveResult.sessionNotFound ∧
    ∀ n, getDir (move_session "H" "zz" "a" "b" false 0 (fun _ => false) exFS).2.fs n =
        getDir exFS n ∨
      (getDir exFS n = none ∧
        getDir (move_session "H" "zz" "a" "b" false 0 (fun _ => false) exFS).2.fs n =
          some emptyProjectDir) :=
  ⟨rfl, move_session_validation_no_mutation "H" "zz" "a" "b" false 0 (fun _ => false) exFS
    MoveResult.sessionNotFound _ rfl (Or.inl rfl)⟩


/-! ## Further lemmas for computing transaction runs -/

theorem getJsonl_setDir (fs : FS) (n : String) (d : ProjectDir) (dir s : String) :
    getJsonl (setDir fs n d) dir s =
      if n = dir then getF d.jsonl s else getJsonl fs dir s := by
  unfold getJsonl
  rw [getDir_setDir]
  by_cases h : n = dir <;> simp [h]

theorem getSubdir_setDir (fs : FS) (n : String) (d : ProjectDir) (dir s : String) :
    getSubdir (setDir fs n d) dir s =
      if n = dir then getF d.subdir s else getSubdir fs dir s := by
  unfold getSubdir
  rw [getDir_setDir]
  by_cases h : n = dir <;> simp [h]

theorem getIndexFile_setDir (fs : FS) (n : String) (d : ProjectDir) (dir : String) :
    getIndexFile (setDir fs n d) dir =
      if n = dir then d.indexFile else getIndexFile fs dir := by
  unfold getIndexFile
  rw [getDir_setDir]
  by_cases h : n = dir <;> simp [h]


theorem load_sessions_index_empty (op : Option String) :
    load_sessions_index (some emptyProjectDir) op =
      { version := 1, entries := [], originalPath := op.getD "" } := rfl

theorem find_session_in_index_nil (v : Nat) (p : String) (sid : String) :
    find_session_in_index { version := v, entries := [], originalPath := p } sid = none := rfl

theorem getJsonl_writeJsonl_ne {dir d : String} (h : dir ≠ d) (fs : FS)
    (sid c s : String) : getJsonl (writeJsonl fs dir sid c) d s = getJsonl fs d s := by
  unfold writeJsonl
  exact getJsonl_modifyDir_ne fs dir
    (fun d₀ => { d₀ with jsonl := setF d₀.jsonl sid c }) d s h

theorem getSubdir_writeSubdir_ne {dir d : String} (h : dir ≠ d) (fs : FS)
    (sid c s : String) : getSubdir (writeSubdir fs dir sid c) d s = getSubdir fs d s := by
  unfold writeSubdir
  exact getSubdir_modifyDir_ne fs dir
    (fun d₀ => { d₀ with subdir := setF d₀.subdir sid c }) d s h

theorem getIndexFile_save (fs : FS) (dir : String) (idx : SessionsIndex) (d : String) :
    getIndexFile (save_sessions_index fs dir idx) d =
      if dir = d ∧ (getDir fs dir).isSome then some idx else getIndexFile fs d := by
  unfold save_sessions_index getIndexFile
  rw [getDir_modifyDir]
  by_cases h : dir = d
  · subst h
    cases hd : getDir fs dir <;> simp [hd]
  · simp [h]

theorem getIndexFile_writeJsonl (fs : FS) (dir sid c : String) (d : String) :
    getIndexFile (writeJsonl fs dir sid c) d = getIndexFile fs d := by
  unfold writeJsonl
  exact getIndexFile_modifyDir_preserve fs dir
    (fun d₀ => { d₀ with jsonl := setF d₀.jsonl sid c }) (fun _ => rfl) d

theorem getIndexFile_writeSubdir (fs : FS) (dir sid c : String) (d : String) :
    getIndexFile (writeSubdir fs dir sid c) d = getIndexFile fs d := by
  unfold writeSubdir
  exact getIndexFile_modifyDir_preserve fs dir
    (fun d₀ => { d₀ with subdir := setF d₀.subdir sid c }) (fun _ => rfl) d

theorem getIndexFile_removeJsonl (fs : FS) (dir sid : String) (d : String) :
    getIndexFile (removeJsonl fs dir sid) d = getIndexFile fs d := by
  unfold removeJsonl
  exact getIndexFile_modifyDir_preserve fs dir
    (fun d₀ => { d₀ with jsonl := delF d₀.jsonl sid }) (fun _ => rfl) d

theorem getIndexFile_removeSubdir (fs : FS) (dir sid : String) (d : String) :
    getIndexFile (removeSubdir fs dir sid) d = getIndexFile fs d := by
  unfold removeSubdir
  exact getIndexFile_modifyDir_preserve fs dir
    (fun d₀ => { d₀ with subdir := delF d₀.subdir sid }) (fun _ => rfl) d

theorem getDir_writeJsonl_isSome (fs : FS) (dir sid c : String) (d : String) :
    (getDir (writeJsonl fs dir sid c) d).isSome = (getDir fs d).isSome := by
  unfold writeJsonl modifyDir
  cases hd : getDir fs dir
  · rfl
  · rw [getDir_setDir]
    by_cases h : dir = d
    · subst h
      simp [hd]
    · simp [h]

theorem getDir_writeSubdir_isSome (fs : FS) (dir sid c : String) (d : String) :
    (getDir (writeSubdir fs dir sid c) d).isSome = (getDir fs d).isSome := by
  unfold writeSubdir modifyDir
  cases hd : getDir fs dir
  · rfl
  · rw [getDir_setDir]
    by_cases h : dir = d
    · subst h
      simp [hd]
    · simp [h]

/-! ## C5: moving an unindexed session -/

/-- C5 — For a session whose log file exists in the source project
directory but which has no entry in the source index, in the benign
scenario (no injected I/O fault, destination directory not yet existing),
the move succeeds and produces exactly one destination index entry whose
summary is `"Migrated session"`, whose identifier is the given session id,
and whose timestamps are the current time; the source index file is not
rewritten. -/
theorem move_session_unindexed (home session_id source_path dest_path : String)
    (now : Nat) (sched : Nat → Bool) (fs₀ : FS) (sd : ProjectDir) (logContent : String)
    (res : MoveResult) (m' : Machine)
    (hsched : ∀ k, sched k = false)
    (hSrc : getDir fs₀ (get_project_dir home source_path) = some sd)
    (hDst : getDir fs₀ (get_project_dir home dest_path) = none)
    (hFind : find_session_in_index (load_sessions_index (some sd) none) session_id = none)
    (hLog : getF sd.jsonl session_id = some logContent)
    (hm : move_session home session_id source_path dest_path false now sched fs₀ =
      (res, m')) :
    res = MoveResult.success ∧
    getIndexFile m'.fs (get_project_dir home dest_path) =
      some { version := 1
             entries := [{ sessionId := session_id
                           fullPath := get_project_dir home dest_path ++ "/" ++
                             session_id ++ ".jsonl"
                           projectPath := dest_path
                           summary := some "Migrated session"
                           firstPrompt := none
                           created := now
                           modified := now }]
             originalPath := dest_path } ∧
    getIndexFile m'.fs (get_project_dir home source_path) =
      getIndexFile fs₀ (get_project_dir home source_path) := by
  have hne : get_project_dir home source_path ≠ get_project_dir home dest_path := by
    intro h
    rw [h, hDst] at hSrc
    exact absurd hSrc (by simp)
  have hne' : get_project_dir home dest_path ≠ get_project_dir home source_path :=
    fun h => hne h.symm
  have hJ : getJsonl fs₀ (get_project_dir home source_path) session_id =
      some logContent := by
    unfold getJsonl
    rw [hSrc]
    exact hLog
  have hS : getSubdir fs₀ (get_project_dir home source_path) session_id =
      getF sd.subdir session_id := by
    unfold getSubdir
    rw [hSrc]
    rfl
  simp only [move_session, hSrc, hDst, Option.isNone_some, Option.isNone_none,
    Bool.not_false, Bool.and_self, Bool.true_and, if_true, if_false] at hm
  simp only [attempt, hsched, Bool.false_eq_true, if_false] at hm
  simp only [getJsonl, getDir_setDir, if_pos rfl, if_neg hne', hSrc,
    Option.some_bind, hLog, hFind, load_sessions_index_empty,
    find_session_in_index_nil, Option.isSome_some, Option.isSome_none,
    if_true, if_false, Bool.false_eq_true, Bool.true_eq_false,
    Option.map_none', List.nil_append, Option.getD_some] at hm
  rcases hsub : getF sd.subdir session_id with _ | tc <;>
  · simp only [tryPhase, andThen, copyLogStep, copyTreeStep, saveIndexStep,
      deleteLogStep, deleteTreeStep, attempt, hsched, Bool.false_eq_true, if_false,
      getJsonl_save, getSubdir_save, getJsonl_writeSubdir, getSubdir_writeJsonl,
      getJsonl_removeSubdir, getSubdir_removeJsonl, getJsonl_writeJsonl_ne hne',
      getSubdir_writeSubdir_ne hne', getJsonl_setDir, getSubdir_setDir,
      if_pos rfl, if_neg hne', if_neg hne, hJ, hS, hsub, emptyProjectDir, getF,
      Option.map_none', Option.isSome_some, Option.isSome_none, if_true, if_false] at hm
    simp only [Prod.mk.injEq] at hm
    obtain ⟨rfl, rfl⟩ := hm
    refine ⟨rfl, ?_, ?_⟩ <;>
      simp [getIndexFile_removeJsonl, getIndexFile_removeSubdir, getIndexFile_save,
        getIndexFile_writeJsonl, getIndexFile_writeSubdir, getIndexFile_setDir,
        getDir_writeJsonl_isSome, getDir_writeSubdir_isSome, getDir_setDir,
        if_pos rfl, if_neg hne', create_session_entry, hne']


/-- A source project directory holding the unindexed session `u1`: a log
file but no index file. -/
def exSrcU : ProjectDir := { indexFile := none, jsonl := [("u1", "ULOG")], subdir := [] }

/-- A filesystem with only the source project `a` for the unindexed case;
the destination project `b` does not exist yet. -/
def exFSU : FS := [(get_project_dir "H" "a", exSrcU)]

/-- Witness for C5: a concrete unindexed move succeeds, creates exactly the
synthesized destination entry with summary "Migrated session", and leaves
the (absent) source index file untouched. -/
theorem move_session_unindexed_witness :
    (getDir exFSU (get_project_dir "H" "a") = some exSrcU ∧
     getDir exFSU (get_project_dir "H" "b") = none ∧
     find_session_in_index (load_sessions_index (some exSrcU) none) "u1" = none ∧
     getF exSrcU.jsonl "u1" = some "ULOG") ∧
    ((move_session "H" "u1" "a" "b" false 7 (fun _ => false) exFSU).1 =
        MoveResult.success ∧
      getIndexFile (move_session "H" "u1" "a" "b" false 7 (fun _ => false) exFSU).2.fs
          (get_project_dir "H" "b") =
        some { version := 1
               entries := [{ sessionId := "u1"
                             fullPath := get_project_dir "H" "b" ++ "/" ++ "u1" ++ ".jsonl"
                             projectPath := "b"
                             summary := some "Migrated session"
                             firstPrompt := none
                             created := 7
                             modified := 7 }]
               originalPath := "b" } ∧
      getIndexFile (move_session "H" "u1" "a" "b" false 7 (fun _ => false) exFSU).2.fs
          (get_project_dir "H" "a") =
        getIndexFile exFSU (get_project_dir "H" "a")) :=
  ⟨⟨rfl, rfl, rfl, rfl⟩,
    move_session_unindexed "H" "u1" "a" "b" 7 (fun _ => false) exFSU exSrcU "ULOG"
      (move_session "H" "u1" "a" "b" false 7 (fun _ => false) exFSU).1
      (move_session "H" "u1" "a" "b" false 7 (fun _ => false) exFSU).2
      (fun _ => rfl) rfl rfl rfl rfl rfl⟩


/-! ## Inversion lemmas for the transaction runner -/

theorem andThen_ok {x : Except Machine Machine} {f : Machine → Except Machine Machine}
    {m' : Machine} (h : andThen x f = Except.ok m') :
    ∃ mm, x = Except.ok mm ∧ f mm = Except.ok m' := by
  cases x with
  | error m => simp [andThen] at h
  | ok m => exact ⟨m, rfl, h⟩

theorem attempt_ok {sched : Nat → Bool} {m : Machine} {ev : Event} {f : FS → FS}
    {m' : Machine} (h : attempt sched m ev f = Except.ok m') :
    m'.fs = f m.fs ∧ m'.trace = m.trace ++ [ev] ∧ m'.ops = m.ops + 1 := by
  unfold attempt at h
  split at h
  · exact absurd h (by simp)
  · simp only [Except.ok.injEq] at h
    subst h
    exact ⟨rfl, rfl, rfl⟩

theorem getDir_modifyDir_isSome (fs : FS) (n : String) (f : ProjectDir → ProjectDir)
    (d : String) : (getDir (modifyDir fs n f) d).isSome = (getDir fs d).isSome := by
  rw [getDir_modifyDir]
  by_cases h : n = d
  · subst h
    cases getDir fs n <;> simp
  · simp [h]

theorem getDir_save_isSome (fs : FS) (dir : String) (idx : SessionsIndex) (d : String) :
    (getDir (save_sessions_index fs dir idx) d).isSome = (getDir fs d).isSome := by
  unfold save_sessions_index
  exact getDir_modifyDir_isSome fs dir _ d

theorem getDir_removeJsonl_isSome (fs : FS) (dir sid : String) (d : String) :
    (getDir (removeJsonl fs dir sid) d).isSome = (getDir fs d).isSome := by
  unfold removeJsonl
  exact getDir_modifyDir_isSome fs dir _ d

theorem getDir_removeSubdir_isSome (fs : FS) (dir sid : String) (d : String) :
    (getDir (removeSubdir fs dir sid) d).isSome = (getDir fs d).isSome := by
  unfold removeSubdir
  exact getDir_modifyDir_isSome fs dir _ d

theorem copyLogStep_ok {sched : Nat → Bool} {srcD dstD sid : String} {m m' : Machine}
    (h : copyLogStep sched srcD dstD sid m = Except.ok m') :
    (∀ d, getIndexFile m'.fs d = getIndexFile m.fs d) ∧
    (∀ d, (getDir m'.fs d).isSome = (getDir m.fs d).isSome) := by
  unfold copyLogStep at h
  split at h
  · simp only [Except.ok.injEq] at h
    subst h
    exact ⟨fun _ => rfl, fun _ => rfl⟩
  · split at h
    · exact absurd h (by simp)
    · obtain ⟨hfs, -, -⟩ := attempt_ok h
      rw [hfs]
      exact ⟨fun d => getIndexFile_writeJsonl _ _ _ _ d,
        fun d => getDir_writeJsonl_isSome _ _ _ _ d⟩

theorem copyTreeStep_ok {sched : Nat → Bool} {srcD dstD sid : String} {m m' : Machine}
    (h : copyTreeStep sched srcD dstD sid m = Except.ok m') :
    (∀ d, getIndexFile m'.fs d = getIndexFile m.fs d) ∧
    (∀ d, (getDir m'.fs d).isSome = (getDir m.fs d).isSome) := by
  unfold copyTreeStep at h
  split at h
  · simp only [Except.ok.injEq] at h
    subst h
    exact ⟨fun _ => rfl, fun _ => rfl⟩
  · split at h
    · exact absurd h (by simp)
    · obtain ⟨hfs, -, -⟩ := attempt_ok h
      rw [hfs]
      exact ⟨fun d => getIndexFile_writeSubdir _ _ _ _ d,
        fun d => getDir_writeSubdir_isSome _ _ _ _ d⟩

theorem deleteLogStep_ok {sched : Nat → Bool} {dir sid : String} {m m' : Machine}
    (h : deleteLogStep sched dir sid m = Except.ok m') :
    (∀ d, getIndexFile m'.fs d = getIndexFile m.fs d) ∧
    (∀ d, (getDir m'.fs d).isSome = (getDir m.fs d).isSome) := by
  unfold deleteLogStep at h
  split at h
  · simp only [Except.ok.injEq] at h
    subst h
    exact ⟨fun _ => rfl, fun _ => rfl⟩
  · obtain ⟨hfs, -, -⟩ := attempt_ok h
    rw [hfs]
    exact ⟨fun d => getIndexFile_removeJsonl _ _ _ d,
      fun d => getDir_removeJsonl_isSome _ _ _ d⟩

theorem deleteTreeStep_ok {sched : Nat → Bool} {dir sid : String} {m m' : Machine}
    (h : deleteTreeStep sched dir sid m = Except.ok m') :
    (∀ d, getIndexFile m'.fs d = getIndexFile m.fs d) ∧
    (∀ d, (getDir m'.fs d).isSome = (getDir m.fs d).isSome) := by
  unfold deleteTreeStep at h
  split at h
  · simp only [Except.ok.injEq] at h
    subst h
    exact ⟨fun _ => rfl, fun _ => rfl⟩
  · obtain ⟨hfs, -, -⟩ := attempt_ok h
    rw [hfs]
    exact ⟨fun d => getIndexFile_removeSubdir _ _ _ d,
      fun d => getDir_removeSubdir_isSome _ _ _ d⟩

theorem saveIndexStep_ok {sched : Nat → Bool} {dir : String} {idx : SessionsIndex}
    {m m' : Machine} (h : saveIndexStep sched dir idx m = Except.ok m') :
    m'.fs = save_sessions_index m.fs dir idx :=
  (attempt_ok h).1

/-- Running the try block to completion with a source-index rewrite staged
(`source_index_new = some sidx`) leaves `didx` as the destination index file
and `sidx` as the source index file. -/
theorem tryPhase_ok_indexed (sched : Nat → Bool) (srcD dstD sid : String)
    (didx sidx : SessionsIndex) (m m₂ : Machine)
    (hne : srcD ≠ dstD)
    (hds : (getDir m.fs dstD).isSome = true)
    (hss : (getDir m.fs srcD).isSome = true)
    (h : tryPhase sched srcD dstD sid didx (some sidx) m = Except.ok m₂) :
    getIndexFile m₂.fs dstD = some didx ∧ getIndexFile m₂.fs srcD = some sidx := by
  unfold tryPhase at h
  obtain ⟨mA, hA, h⟩ := andThen_ok h
  obtain ⟨mB, hB, h⟩ := andThen_ok h
  obtain ⟨mC, hC, h⟩ := andThen_ok h
  obtain ⟨mD, hD, h⟩ := andThen_ok h
  obtain ⟨mE, hE, h⟩ := andThen_ok h
  obtain ⟨hPA, hQA⟩ := copyLogStep_ok hA
  obtain ⟨hPB, hQB⟩ := copyTreeStep_ok hB
  have hCfs := saveIndexStep_ok hC
  have hDfs := saveIndexStep_ok (hD : saveIndexStep sched srcD sidx mC = Except.ok mD)
  obtain ⟨hPE, hQE⟩ := deleteLogStep_ok hE
  obtain ⟨hPF, hQF⟩ := deleteTreeStep_ok h
  have hdsB : (getDir mB.fs dstD).isSome = true := by rw [hQB, hQA]; exact hds
  have hssC : (getDir mC.fs srcD).isSome = true := by
    rw [hCfs, getDir_save_isSome, hQB, hQA]
    exact hss
  constructor
  · rw [hPF, hPE, hDfs, getIndexFile_save]
    rw [if_neg (by simp [hne])]
    rw [hCfs, getIndexFile_save, if_pos ⟨rfl, hdsB⟩]
  · rw [hPF, hPE, hDfs, getIndexFile_save, if_pos ⟨rfl, hssC⟩]

/-! ## Characterization of the session locator -/

theorem findFrom_none_iff (l : List SessionEntry) (sid : String) (i : Nat) :
    findFrom l sid i = none ↔ ∀ e ∈ l, e.sessionId ≠ sid := by
  induction l generalizing i with
  | nil => simp [findFrom]
  | cons a t ih =>
    by_cases h : a.sessionId = sid <;> simp [findFrom, h, ih]

theorem findFrom_some_char (l : List SessionEntry) (sid : String) (i j : Nat)
    (e : SessionEntry) (h : findFrom l sid i = some (j, e)) :
    ∃ k, j = i + k ∧ l[k]? = some e ∧ e.sessionId = sid ∧
      ∀ k' e', k' < k → l[k']? = some e' → e'.sessionId ≠ sid := by
  induction l generalizing i with
  | nil => simp [findFrom] at h
  | cons a t ih =>
    unfold findFrom at h
    split at h
    · simp only [Option.some.injEq, Prod.mk.injEq] at h
      obtain ⟨rfl, rfl⟩ := h
      refine ⟨0, by omega, by simp, by assumption, ?_⟩
      intro k' e' hk
      omega
    · obtain ⟨k, hk, hget, hsid, hmin⟩ := ih (i + 1) h
      refine ⟨k + 1, by omega, by simpa using hget, hsid, ?_⟩
      intro k' e' hk' hg
      match k' with
      | 0 =>
        simp only [List.getElem?_cons_zero, Option.some.injEq] at hg
        subst hg
        assumption
      | Nat.succ k'' =>
        exact hmin k'' e' (by omega) (by simpa using hg)

theorem findFrom_cons (a : SessionEntry) (t : List SessionEntry) (sid : String)
    (i : Nat) :
    findFrom (a :: t) sid i =
      if a.sessionId = sid then some (i, a) else findFrom t sid (i + 1) := rfl

theorem findFrom_append_right (l₁ l₂ : List SessionEntry) (sid : String) (i : Nat)
    (h : findFrom l₁ sid i = none) :
    findFrom (l₁ ++ l₂) sid i = findFrom l₂ sid (i + l₁.length) := by
  induction l₁ generalizing i with
  | nil => simp [findFrom]
  | cons a t ih =>
    rw [findFrom_cons] at h
    split at h
    · exact absurd h (by simp)
    · next hne =>
      rw [List.cons_append, findFrom_cons, if_neg hne, ih (i + 1) h]
      congr 1
      simp only [List.length_cons]
      omega


/-! ## The successful indexed move -/

/-- Entries of a loaded index do not depend on the fallback path. -/
theorem load_entries_congr (o : Option ProjectDir) (p q : Option String) :
    (load_sessions_index o p).entries = (load_sessions_index o q).entries := by
  cases o with
  | none => rfl
  | some d => cases hx : d.indexFile <;> simp [load_sessions_index, hx]

/-- Characterization of every successful non-dry-run move of an indexed
session: the duplicate check on the destination index passed, the final
destination index file is the loaded destination index with the staged
entry (the source entry with destination paths and refreshed modified
timestamp) appended, and the final source index file is the loaded source
index with the located entry removed at its position. -/
theorem move_session_indexed_success
    (home session_id source_path dest_path : String) (now : Nat) (sched : Nat → Bool)
    (fs₀ : FS) (i : Nat) (e : SessionEntry) (m' : Machine)
    (hFind : find_session_in_index
      (load_sessions_index (getDir fs₀ (get_project_dir home source_path)) none)
      session_id = some (i, e))
    (hm : move_session home session_id source_path dest_path false now sched fs₀ =
      (MoveResult.success, m')) :
    find_session_in_index
      (load_sessions_index (getDir fs₀ (get_project_dir home dest_path)) (some dest_path))
      session_id = none ∧
    getIndexFile m'.fs (get_project_dir home dest_path) =
      some { load_sessions_index (getDir fs₀ (get_project_dir home dest_path))
               (some dest_path) with
             entries := (load_sessions_index
                 (getDir fs₀ (get_project_dir home dest_path)) (some dest_path)).entries ++
               [{ e with
                  fullPath := get_project_dir home dest_path ++ "/" ++ session_id ++ ".jsonl"
                  projectPath := dest_path
                  modified := now }] } ∧
    getIndexFile m'.fs (get_project_dir home source_path) =
      some { load_sessions_index (getDir fs₀ (get_project_dir home source_path)) none with
             entries := (load_sessions_index
                 (getDir fs₀ (get_project_dir home source_path)) none).entries.eraseIdx i } := by
  simp only [move_session] at hm
  split at hm
  · exact absurd (congrArg Prod.fst hm) (by simp)
  · next hsrcEx =>
    rw [Bool.not_eq_true] at hsrcEx
    split at hm
    case h_1 m₁ heq => exact absurd (congrArg Prod.fst hm) (by simp)
    case h_2 m₁ heq =>
      have hm₁ : getDir m₁.fs (get_project_dir home source_path) =
            getDir fs₀ (get_project_dir home source_path) ∧
          load_sessions_index (getDir m₁.fs (get_project_dir home dest_path))
              (some dest_path) =
            load_sessions_index (getDir fs₀ (get_project_dir home dest_path))
              (some dest_path) ∧
          (getDir m₁.fs (get_project_dir home dest_path)).isSome = true := by
        split at heq
        · next hcond =>
          simp only [Bool.and_eq_true, Option.isNone_iff_eq_none] at hcond
          obtain ⟨hfs, -, -⟩ := attempt_ok heq
          have hneq : get_project_dir home dest_path ≠ get_project_dir home source_path := by
            intro hx
            rw [← hx, hcond.1] at hsrcEx
            exact absurd hsrcEx (by simp)
          refine ⟨?_, ?_, ?_⟩
          · rw [hfs, getDir_setDir, if_neg hneq]
          · rw [hfs, getDir_setDir, if_pos rfl, hcond.1]
            rfl
          · rw [hfs, getDir_setDir, if_pos rfl]
            rfl
        · next hcond =>
          simp only [Except.ok.injEq] at heq
          subst heq
          simp only [Bool.and_eq_true, not_and, Bool.not_eq_true] at hcond
          refine ⟨rfl, rfl, ?_⟩
          cases hD : (getDir fs₀ (get_project_dir home dest_path)).isNone
          · simpa using hD
          · have := hcond hD
            simp at this
      rw [hm₁.1, hFind] at hm
      simp only [] at hm
      rw [hm₁.2.1] at hm
      by_cases hdup : (find_session_in_index
          (load_sessions_index (getDir fs₀ (get_project_dir home dest_path))
            (some dest_path)) session_id).isSome = true
      · rw [if_pos hdup] at hm
        exact absurd (congrArg Prod.fst hm) (by simp)
      · rw [if_neg hdup] at hm
        simp only [Bool.false_eq_true, if_false, Option.map_some'] at hm
        have hne : get_project_dir home source_path ≠ get_project_dir home dest_path := by
          intro hal
          apply hdup
          have hent := load_entries_congr
            (getDir fs₀ (get_project_dir home dest_path)) (some dest_path) none
          unfold find_session_in_index at hFind ⊢
          rw [hent, ← hal, hFind]
          rfl
        split at hm
        next m₂ htry =>
          simp only [Prod.mk.injEq, true_and] at hm
          subst hm
          have hds : (getDir m₁.fs (get_project_dir home dest_path)).isSome = true :=
            hm₁.2.2
          have hss : (getDir m₁.fs (get_project_dir home source_path)).isSome = true := by
            rw [hm₁.1]
            cases hx : getDir fs₀ (get_project_dir home source_path)
            · rw [hx] at hsrcEx
              simp at hsrcEx
            · rfl
          have := tryPhase_ok_indexed sched (get_project_dir home source_path)
            (get_project_dir home dest_path) session_id _ _ m₁ m₂ hne hds hss htry
          refine ⟨Option.not_isSome_iff_eq_none.mp (by simpa using hdup), ?_, ?_⟩
          · exact this.1
          · exact this.2
        next m₂ htry =>
          split at hm <;> exact absurd (congrArg Prod.fst hm) (by simp)



/-- A second entry with the same identifier `s1` (a duplicate). -/
def exEntryDup : SessionEntry :=
  { sessionId := "s1", fullPath := "H/.claude/projects/a/s1b.jsonl", projectPath := "a"
    summary := some "Old copy", firstPrompt := none, created := 1, modified := 2 }

/-- A filesystem whose source index contains two entries with id `s1`. -/
def exFSDup : FS :=
  [(get_project_dir "H" "a",
    { indexFile := some { version := 1, entries := [exEntry, exEntryDup], originalPath := "a" }
      jsonl := [("s1", "LOG")], subdir := [] }),
   (get_project_dir "H" "b", exDstPD)]

/-! ## C4: round-trip metadata on a successful indexed move -/

/-- C4 — After every successful move of a session that was present in the
source index, the destination index has an entry with the same session id,
created timestamp, and summary as the pre-move source entry; its fullPath
is the destination log-file path and its projectPath is the destination
project path; and its modified timestamp is ≥ the pre-move modified value
(the code stamps it with the current time, so this requires the clock not
to run backwards: `e.modified ≤ now`). -/
theorem move_session_roundtrip_metadata
    (home session_id source_path dest_path : String) (now : Nat) (sched : Nat → Bool)
    (fs₀ : FS) (i : Nat) (e : SessionEntry) (m' : Machine)
    (hFind : find_session_in_index
      (load_sessions_index (getDir fs₀ (get_project_dir home source_path)) none)
      session_id = some (i, e))
    (hmod : e.modified ≤ now)
    (hm : move_session home session_id source_path dest_path false now sched fs₀ =
      (MoveResult.success, m')) :
    ∃ idx' j e', getIndexFile m'.fs (get_project_dir home dest_path) = some idx' ∧
      find_session_in_index idx' session_id = some (j, e') ∧
      e'.sessionId = e.sessionId ∧
      e'.created = e.created ∧
      e'.summary = e.summary ∧
      e'.fullPath = get_project_dir home dest_path ++ "/" ++ session_id ++ ".jsonl" ∧
      e'.projectPath = dest_path ∧
      e.modified ≤ e'.modified := by
  obtain ⟨h1, h2, h3⟩ := move_session_indexed_success home session_id source_path
    dest_path now sched fs₀ i e m' hFind hm
  obtain ⟨k, hik, hget, hsid, hmin⟩ := findFrom_some_char _ _ 0 i e hFind
  refine ⟨_,
    (load_sessions_index (getDir fs₀ (get_project_dir home dest_path))
      (some dest_path)).entries.length,
    { e with
      fullPath := get_project_dir home dest_path ++ "/" ++ session_id ++ ".jsonl"
      projectPath := dest_path
      modified := now },
    h2, ?_, rfl, rfl, rfl, rfl, rfl, hmod⟩
  show findFrom _ session_id 0 = _
  rw [findFrom_append_right _ _ _ 0 h1, findFrom_cons]
  simp only [hsid, if_pos rfl, Nat.zero_add, if_true]

/-- Witness for C4: the concrete indexed move of `s1` from project `a` to
project `b` satisfies the hypotheses and hence the round-trip conclusion. -/
theorem move_session_roundtrip_metadata_witness :
    (find_session_in_index
        (load_sessions_index (getDir exFS (get_project_dir "H" "a")) none) "s1" =
      some (0, exEntry) ∧
     exEntry.modified ≤ 30 ∧
     (move_session "H" "s1" "a" "b" false 30 (fun _ => false) exFS).1 =
       MoveResult.success) ∧
    (∃ idx' j e', getIndexFile
        (move_session "H" "s1" "a" "b" false 30 (fun _ => false) exFS).2.fs
        (get_project_dir "H" "b") = some idx' ∧
      find_session_in_index idx' "s1" = some (j, e') ∧
      e'.sessionId = exEntry.sessionId ∧
      e'.created = exEntry.created ∧
      e'.summary = exEntry.summary ∧
      e'.fullPath = get_project_dir "H" "b" ++ "/" ++ "s1" ++ ".jsonl" ∧
      e'.projectPath = "b" ∧
      exEntry.modified ≤ e'.modified) :=
  ⟨⟨rfl, by decide, rfl⟩,
    move_session_roundtrip_metadata "H" "s1" "a" "b" 30 (fun _ => false) exFS 0 exEntry
      (move_session "H" "s1" "a" "b" false 30 (fun _ => false) exFS).2
      rfl (by decide) rfl⟩

/-! ## C10: duplicate identifiers in the source index -/

/-- C10 — If the source index contains multiple entries with the moved
session's identifier, the locator returns the first (lowest-position)
matching entry; a successful move removes exactly that one entry from the
source index (the saved source index is the original with position `i`
spliced out, so every later duplicate stays in place), and the destination
index ends up with exactly one entry carrying that identifier. -/
theorem move_session_first_match_dedup
    (home session_id source_path dest_path : String) (now : Nat) (sched : Nat → Bool)
    (fs₀ : FS) (i : Nat) (e : SessionEntry) (m' : Machine)
    (hFind : find_session_in_index
      (load_sessions_index (getDir fs₀ (get_project_dir home source_path)) none)
      session_id = some (i, e))
    (hm : move_session home session_id source_path dest_path false now sched fs₀ =
      (MoveResult.success, m')) :
    ((load_sessions_index (getDir fs₀ (get_project_dir home source_path))
        none).entries[i]? = some e ∧
     e.sessionId = session_id ∧
     ∀ k' e', k' < i →
       (load_sessions_index (getDir fs₀ (get_project_dir home source_path))
         none).entries[k']? = some e' → e'.sessionId ≠ session_id) ∧
    getIndexFile m'.fs (get_project_dir home source_path) =
      some { load_sessions_index (getDir fs₀ (get_project_dir home source_path)) none with
             entries :=
               (load_sessions_index (getDir fs₀ (get_project_dir home source_path))
                 none).entries.take i ++
               (load_sessions_index (getDir fs₀ (get_project_dir home source_path))
                 none).entries.drop (i + 1) } ∧
    ∃ idx', getIndexFile m'.fs (get_project_dir home dest_path) = some idx' ∧
      idx'.entries.countP (fun s => s.sessionId == session_id) = 1 := by
  obtain ⟨h1, h2, h3⟩ := move_session_indexed_success home session_id source_path
    dest_path now sched fs₀ i e m' hFind hm
  obtain ⟨k, hik, hget, hsid, hmin⟩ := findFrom_some_char _ _ 0 i e hFind
  rw [Nat.zero_add] at hik
  subst hik
  refine ⟨⟨hget, hsid, hmin⟩, ?_, ?_⟩
  · rw [← List.eraseIdx_eq_take_drop_succ]
    exact h3
  · refine ⟨_, h2, ?_⟩
    show (_ ++ [_]).countP _ = 1
    rw [List.countP_append]
    have hz : (load_sessions_index (getDir fs₀ (get_project_dir home dest_path))
        (some dest_path)).entries.countP (fun s => s.sessionId == session_id) = 0 := by
      refine List.countP_eq_zero.mpr ?_
      intro a ha
      have := (findFrom_none_iff _ session_id 0).mp h1 a ha
      simpa using this
    rw [hz]
    simp [List.countP_cons, hsid]

/-- Witness for C10: in a source index holding two entries with the same
identifier, the concrete move removes only the first and the destination
ends with exactly one entry for it. -/
theorem move_session_first_match_dedup_witness :
    (find_session_in_index
        (load_sessions_index (getDir exFSDup (get_project_dir "H" "a")) none) "s1" =
      some (0, exEntry) ∧
     (move_session "H" "s1" "a" "b" false 30 (fun _ => false) exFSDup).1 =
       MoveResult.success) ∧
    (getIndexFile
        (move_session "H" "s1" "a" "b" false 30 (fun _ => false) exFSDup).2.fs
        (get_project_dir "H" "a") =
      some { load_sessions_index (getDir exFSDup (get_project_dir "H" "a")) none with
             entries :=
               (load_sessions_index (getDir exFSDup (get_project_dir "H" "a"))
                 none).entries.take 0 ++
               (load_sessions_index (getDir exFSDup (get_project_dir "H" "a"))
                 none).entries.drop 1 } ∧
     ∃ idx', getIndexFile
         (move_session "H" "s1" "a" "b" false 30 (fun _ => false) exFSDup).2.fs
         (get_project_dir "H" "b") = some idx' ∧
       idx'.entries.countP (fun s => s.sessionId == "s1") = 1) :=
  ⟨⟨rfl, rfl⟩,
    ((move_session_first_match_dedup "H" "s1" "a" "b" 30 (fun _ => false) exFSDup 0
      exEntry (move_session "H" "s1" "a" "b" false 30 (fun _ => false) exFSDup).2
      rfl rfl).2.1),
    ((move_session_first_match_dedup "H" "s1" "a" "b" 30 (fun _ => false) exFSDup 0
      exEntry (move_session "H" "s1" "a" "b" false 30 (fun _ => false) exFSDup).2
      rfl rfl).2.2)⟩


/-! ## C9: rollback unconditionally writes the destination index file -/

/-- C9 — Whenever rollback runs it unconditionally writes the destination
index file: here the injected fault hits the very first primitive of the
try block (the log-file copy), so the failure occurs before the
destination index commit; the destination directory had no
`sessions-index.json` and nothing for rollback to delete, yet after
rollback the destination directory contains an index file with version 1,
an empty (filtered) entries list, and `originalPath` equal to the empty
string (rollback re-loads the index with no fallback path) — the
destination's pre-state of having no index file is not restored. -/
theorem rollback_creates_dest_index
    (home session_id source_path dest_path : String) (now : Nat) (sched : Nat → Bool)
    (fs₀ : FS) (sd dd : ProjectDir) (logContent : String)
    (res : MoveResult) (m' : Machine)
    (hs0 : sched 0 = true) (hs1 : sched 1 = false)
    (hne : get_project_dir home source_path ≠ get_project_dir home dest_path)
    (hSrc : getDir fs₀ (get_project_dir home source_path) = some sd)
    (hLog : getF sd.jsonl session_id = some logContent)
    (hDst : getDir fs₀ (get_project_dir home dest_path) = some dd)
    (hDIdx : dd.indexFile = none)
    (hDJ : getF dd.jsonl session_id = none)
    (hDS : getF dd.subdir session_id = none)
    (hm : move_session home session_id source_path dest_path false now sched fs₀ =
      (res, m')) :
    res = MoveResult.rolledBack ∧
    getIndexFile m'.fs (get_project_dir home dest_path) =
      some { version := 1, entries := [], originalPath := "" } := by
  have hne' : get_project_dir home dest_path ≠ get_project_dir home source_path :=
    fun h => hne h.symm
  have hJ : getJsonl fs₀ (get_project_dir home source_path) session_id =
      some logContent := by
    unfold getJsonl
    rw [hSrc]
    exact hLog
  have hDJ' : getJsonl fs₀ (get_project_dir home dest_path) session_id = none := by
    unfold getJsonl
    rw [hDst]
    exact hDJ
  have hDS' : getSubdir fs₀ (get_project_dir home dest_path) session_id = none := by
    unfold getSubdir
    rw [hDst]
    exact hDS
  have hload : load_sessions_index (some dd) (some dest_path) =
      { version := 1, entries := [], originalPath := dest_path } :=
    load_sessions_index_missing dd (some dest_path) hDIdx
  have hload₂ : load_sessions_index (some dd) none =
      { version := 1, entries := [], originalPath := "" } :=
    load_sessions_index_missing dd none hDIdx
  simp only [move_session, hSrc, hDst, Option.isNone_some, Bool.false_and,
    Bool.false_eq_true, if_false] at hm
  rcases hfs : find_session_in_index (load_sessions_index (some sd) none) session_id
    with _ | ⟨i, e⟩ <;>
  · simp only [hfs, hJ, Option.isSome_some, if_true, hload, find_session_in_index_nil,
      Option.isSome_none, Bool.false_eq_true, if_false,
      tryPhase, andThen, copyLogStep, copyTreeStep, saveIndexStep, deleteLogStep,
      deleteTreeStep, attempt, hs0, hs1, if_true, if_false, if_neg hne, hJ,
      rollbackPhase, hDJ', hDS', hload₂, filterIndex, List.filter_nil] at hm
    simp only [Prod.mk.injEq] at hm
    obtain ⟨rfl, rfl⟩ := hm
    refine ⟨rfl, ?_⟩
    rw [getIndexFile_save, if_pos ⟨rfl, by rw [hDst]; rfl⟩, hDst, hload₂]
    rfl

/-- Witness for C9: concrete run in which the copy faults and rollback
creates `sessions-index.json` in the destination with version 1, no
entries, and empty original path. -/
theorem rollback_creates_dest_index_witness :
    ((fun k : Nat => k == 0) 0 = true ∧
     (fun k : Nat => k == 0) 1 = false ∧
     get_project_dir "H" "a" ≠ get_project_dir "H" "b" ∧
     getDir exFS (get_project_dir "H" "a") = some exSrcPD ∧
     getF exSrcPD.jsonl "s1" = some "LOG" ∧
     getDir exFS (get_project_dir "H" "b") = some exDstPD ∧
     exDstPD.indexFile = none) ∧
    ((move_session "H" "s1" "a" "b" false 30 (fun k => k == 0) exFS).1 =
       MoveResult.rolledBack ∧
     getIndexFile (move_session "H" "s1" "a" "b" false 30 (fun k => k == 0) exFS).2.fs
         (get_project_dir "H" "b") =
       some { version := 1, entries := [], originalPath := "" }) :=
  ⟨⟨rfl, rfl, by decide, rfl, rfl, rfl, rfl⟩,
    rollback_creates_dest_index "H" "s1" "a" "b" 30 (fun k => k == 0) exFS exSrcPD
      exDstPD "LOG"
      (move_session "H" "s1" "a" "b" false 30 (fun k => k == 0) exFS).1
      (move_session "H" "s1" "a" "b" false 30 (fun k => k == 0) exFS).2
      rfl rfl (by decide) rfl rfl rfl rfl rfl rfl rfl⟩


/-! ## Frame lemmas: which primitives can touch the source artifacts -/

theorem getJsonl_removeJsonl (fs : FS) (dir sid : String) (d s : String) :
    getJsonl (removeJsonl fs dir sid) d s =
      if dir = d ∧ sid = s then none else getJsonl fs d s := by
  unfold removeJsonl getJsonl
  rw [getDir_modifyDir]
  by_cases h : dir = d
  · subst h
    cases hd : getDir fs dir
    · simp [hd]
    · simp only [hd, if_pos rfl, Option.map_some', Option.some_bind]
      by_cases hs : sid = s <;> simp [getF_delF, hs, hd]
  · simp [h]

theorem getSubdir_removeSubdir (fs : FS) (dir sid : String) (d s : String) :
    getSubdir (removeSubdir fs dir sid) d s =
      if dir = d ∧ sid = s then none else getSubdir fs d s := by
  unfold removeSubdir getSubdir
  rw [getDir_modifyDir]
  by_cases h : dir = d
  · subst h
    cases hd : getDir fs dir
    · simp [hd]
    · simp only [hd, if_pos rfl, Option.map_some', Option.some_bind]
      by_cases hs : sid = s <;> simp [getF_delF, hs, hd]
  · simp [h]

/-- The frame tracked through the transaction for claim C1: the source log
file and auxiliary directory are unchanged and the trace only grows. -/
def SrcFrame (srcD sid : String) (m m' : Machine) : Prop :=
  getJsonl m'.fs srcD sid = getJsonl m.fs srcD sid ∧
  getSubdir m'.fs srcD sid = getSubdir m.fs srcD sid ∧
  ∃ l, m'.trace = m.trace ++ l

theorem SrcFrame.rfl (srcD sid : String) (m : Machine) : SrcFrame srcD sid m m :=
  ⟨Eq.refl _, Eq.refl _, [], by simp⟩

theorem SrcFrame.trans {srcD sid : String} {m₁ m₂ m₃ : Machine}
    (h₁ : SrcFrame srcD sid m₁ m₂) (h₂ : SrcFrame srcD sid m₂ m₃) :
    SrcFrame srcD sid m₁ m₃ := by
  obtain ⟨a₁, b₁, l₁, c₁⟩ := h₁
  obtain ⟨a₂, b₂, l₂, c₂⟩ := h₂
  exact ⟨a₂.trans a₁, b₂.trans b₁, l₁ ++ l₂, by rw [c₂, c₁, List.append_assoc]⟩

theorem copyLogStep_frame {sched : Nat → Bool} {srcD dstD sid : String} {m m' : Machine}
    (h : copyLogStep sched srcD dstD sid m = Except.ok m' ∨
      copyLogStep sched srcD dstD sid m = Except.error m') :
    SrcFrame srcD sid m m' := by
  unfold copyLogStep at h
  rcases h with h | h
  · split at h
    · simp only [Except.ok.injEq] at h
      subst h
      exact SrcFrame.rfl _ _ _
    · split at h
      · exact absurd h (by simp)
      · next hnesd =>
        obtain ⟨hfs, htr, -⟩ := attempt_ok h
        refine ⟨?_, ?_, [_], htr⟩
        · rw [hfs, getJsonl_writeJsonl_ne (fun hx => hnesd hx.symm)]
        · rw [hfs, getSubdir_writeJsonl]
  · split at h
    · exact absurd h (by simp)
    · split at h
      · simp only [Except.error.injEq] at h
        subst h
        exact SrcFrame.rfl _ _ _
      · unfold attempt at h
        split at h
        · simp only [Except.error.injEq] at h
          subst h
          exact SrcFrame.rfl _ _ _
        · exact absurd h (by simp)

theorem copyTreeStep_frame {sched : Nat → Bool} {srcD dstD sid : String} {m m' : Machine}
    (h : copyTreeStep sched srcD dstD sid m = Except.ok m' ∨
      copyTreeStep sched srcD dstD sid m = Except.error m') :
    SrcFrame srcD sid m m' := by
  unfold copyTreeStep at h
  rcases h with h | h
  · split at h
    · simp only [Except.ok.injEq] at h
      subst h
      exact SrcFrame.rfl _ _ _
    · next content hsome =>
      split at h
      · exact absurd h (by simp)
      · next hnotex =>
        obtain ⟨hfs, htr, -⟩ := attempt_ok h
        have hnesd : srcD ≠ dstD := by
          intro hx
          rw [← hx, hsome] at hnotex
          simp at hnotex
        refine ⟨?_, ?_, [_], htr⟩
        · rw [hfs, getJsonl_writeSubdir]
        · rw [hfs, getSubdir_writeSubdir_ne (fun hx => hnesd hx.symm)]
  · split at h
    · exact absurd h (by simp)
    · split at h
      · simp only [Except.error.injEq] at h
        subst h
        exact SrcFrame.rfl _ _ _
      · unfold attempt at h
        split at h
        · simp only [Except.error.injEq] at h
          subst h
          exact SrcFrame.rfl _ _ _
        · exact absurd h (by simp)

theorem saveIndexStep_frame {sched : Nat → Bool} {dir : String} {idx : SessionsIndex}
    {m m' : Machine} (srcD sid : String)
    (h : saveIndexStep sched dir idx m = Except.ok m' ∨
      saveIndexStep sched dir idx m = Except.error m') :
    SrcFrame srcD sid m m' := by
  unfold saveIndexStep attempt at h
  rcases h with h | h
  · split at h
    · exact absurd h (by simp)
    · simp only [Except.ok.injEq] at h
      subst h
      exact ⟨getJsonl_save _ _ _ _ _, getSubdir_save _ _ _ _ _, [_], Eq.refl _⟩
  · split at h
    · simp only [Except.error.injEq] at h
      subst h
      exact SrcFrame.rfl _ _ _
    · exact absurd h (by simp)

theorem deleteLogStep_frame {sched : Nat → Bool} {D sid₀ : String} {m m' : Machine}
    (h : deleteLogStep sched D sid₀ m = Except.ok m' ∨
      deleteLogStep sched D sid₀ m = Except.error m') :
    (∃ l, m'.trace = m.trace ++ l) ∧
    (∀ d s, getSubdir m'.fs d s = getSubdir m.fs d s) ∧
    (∀ d s, ¬(D = d ∧ sid₀ = s) → getJsonl m'.fs d s = getJsonl m.fs d s) ∧
    (Event.deleteLog D sid₀ ∉ m'.trace →
      getJsonl m'.fs D sid₀ = getJsonl m.fs D sid₀) := by
  unfold deleteLogStep at h
  rcases h with h | h
  · split at h
    · simp only [Except.ok.injEq] at h
      subst h
      exact ⟨⟨[], by simp⟩, fun _ _ => Eq.refl _, fun _ _ _ => Eq.refl _,
        fun _ => Eq.refl _⟩
    · unfold attempt at h
      split at h
      · exact absurd h (by simp)
      · simp only [Except.ok.injEq] at h
        subst h
        refine ⟨⟨[_], Eq.refl _⟩, fun d s => getSubdir_removeJsonl _ _ _ _ _, ?_, ?_⟩
        · intro d s hds
          simp only [getJsonl_removeJsonl, if_neg hds]
        · intro hno
          exact absurd (by simp : Event.deleteLog D sid₀ ∈ m.trace ++ [Event.deleteLog D sid₀]) hno
  · split at h
    · exact absurd h (by simp)
    · unfold attempt at h
      split at h
      · simp only [Except.error.injEq] at h
        subst h
        exact ⟨⟨[], by simp⟩, fun _ _ => Eq.refl _, fun _ _ _ => Eq.refl _,
          fun _ => Eq.refl _⟩
      · exact absurd h (by simp)

theorem deleteTreeStep_frame {sched : Nat → Bool} {D sid₀ : String} {m m' : Machine}
    (h : deleteTreeStep sched D sid₀ m = Except.ok m' ∨
      deleteTreeStep sched D sid₀ m = Except.error m') :
    (∃ l, m'.trace = m.trace ++ l) ∧
    (∀ d s, getJsonl m'.fs d s = getJsonl m.fs d s) ∧
    (∀ d s, ¬(D = d ∧ sid₀ = s) → getSubdir m'.fs d s = getSubdir m.fs d s) ∧
    (Event.deleteTree D sid₀ ∉ m'.trace →
      getSubdir m'.fs D sid₀ = getSubdir m.fs D sid₀) := by
  unfold deleteTreeStep at h
  rcases h with h | h
  · split at h
    · simp only [Except.ok.injEq] at h
      subst h
      exact ⟨⟨[], by simp⟩, fun _ _ => Eq.refl _, fun _ _ _ => Eq.refl _,
        fun _ => Eq.refl _⟩
    · unfold attempt at h
      split at h
      · exact absurd h (by simp)
      · simp only [Except.ok.injEq] at h
        subst h
        refine ⟨⟨[_], Eq.refl _⟩, fun d s => getJsonl_removeSubdir _ _ _ _ _, ?_, ?_⟩
        · intro d s hds
          simp only [getSubdir_removeSubdir, if_neg hds]
        · intro hno
          exact absurd (by simp : Event.deleteTree D sid₀ ∈ m.trace ++ [Event.deleteTree D sid₀]) hno
  · split at h
    · exact absurd h (by simp)
    · unfold attempt at h
      split at h
      · simp only [Except.error.injEq] at h
        subst h
        exact ⟨⟨[], by simp⟩, fun _ _ => Eq.refl _, fun _ _ _ => Eq.refl _,
          fun _ => Eq.refl _⟩
      · exact absurd h (by simp)


theorem andThen_cases {x : Except Machine Machine} {f : Machine → Except Machine Machine}
    {m' : Machine}
    (h : andThen x f = Except.ok m' ∨ andThen x f = Except.error m') :
    x = Except.error m' ∨
    ∃ mm, x = Except.ok mm ∧ (f mm = Except.ok m' ∨ f mm = Except.error m') := by
  cases x with
  | error mA =>
    rcases h with h | h
    · exact absurd h (by simp [andThen])
    · simp only [andThen, Except.error.injEq] at h
      exact Or.inl (by rw [h])
  | ok mA => exact Or.inr ⟨mA, rfl, by simpa [andThen] using h⟩

/-- The try block never touches the source log file or auxiliary directory
unless the corresponding deletion event appears in the final trace. -/
theorem tryPhase_frame {sched : Nat → Bool} {srcD dstD sid : String}
    {didx : SessionsIndex} {sidxOpt : Option SessionsIndex} {m m' : Machine}
    (h : tryPhase sched srcD dstD sid didx sidxOpt m = Except.ok m' ∨
      tryPhase sched srcD dstD sid didx sidxOpt m = Except.error m')
    (hnoL : Event.deleteLog srcD sid ∉ m'.trace)
    (hnoT : Event.deleteTree srcD sid ∉ m'.trace) :
    SrcFrame srcD sid m m' := by
  unfold tryPhase at h
  rcases andThen_cases h with h | ⟨mA, hA, h⟩
  · exact copyLogStep_frame (Or.inr h)
  · have f₁ := copyLogStep_frame (Or.inl hA)
    rcases andThen_cases h with h | ⟨mB, hB, h⟩
    · exact f₁.trans (copyTreeStep_frame (Or.inr h))
    · have f₂ := f₁.trans (copyTreeStep_frame (Or.inl hB))
      rcases andThen_cases h with h | ⟨mC, hC, h⟩
      · exact f₂.trans (saveIndexStep_frame srcD sid (Or.inr h))
      · have f₃ := f₂.trans (saveIndexStep_frame srcD sid (Or.inl hC))
        rcases andThen_cases h with h | ⟨mD, hD, h⟩
        · refine f₃.trans ?_
          cases sidxOpt with
          | none => exact absurd h (by simp)
          | some sidx => exact saveIndexStep_frame srcD sid (Or.inr h)
        · have f₄ : SrcFrame srcD sid m mD := by
            refine f₃.trans ?_
            cases sidxOpt with
            | none =>
              simp only [Except.ok.injEq] at hD
              subst hD
              exact SrcFrame.rfl _ _ _
            | some sidx => exact saveIndexStep_frame srcD sid (Or.inl hD)
          rcases andThen_cases h with h | ⟨mE, hE, h⟩
          · obtain ⟨htr, hsub, -, hjs⟩ := deleteLogStep_frame (Or.inr h)
            exact f₄.trans ⟨hjs hnoL, hsub srcD sid, htr⟩
          · obtain ⟨⟨l₆, htr₆⟩, hjs₆, -, hsub₆⟩ := deleteTreeStep_frame h
            have hnoLE : Event.deleteLog srcD sid ∉ mE.trace := by
              intro hx
              exact hnoL (by rw [htr₆]; exact List.mem_append_left _ hx)
            obtain ⟨htr₅, hsub₅, -, hjs₅⟩ := deleteLogStep_frame (Or.inl hE)
            refine f₄.trans (SrcFrame.trans ⟨hjs₅ hnoLE, hsub₅ srcD sid, htr₅⟩ ?_)
            exact ⟨hjs₆ srcD sid, hsub₆ hnoT, l₆, htr₆⟩

/-- The rollback block never touches the given source log file or
auxiliary directory unless the corresponding deletion event (which rollback
can only produce for the destination directory) appears in the final
trace. -/
theorem rollbackPhase_frame {sched : Nat → Bool} {dstD sid : String} {m m' : Machine}
    (srcD : String)
    (h : rollbackPhase sched dstD sid m = Except.ok m' ∨
      rollbackPhase sched dstD sid m = Except.error m')
    (hnoL : Event.deleteLog srcD sid ∉ m'.trace)
    (hnoT : Event.deleteTree srcD sid ∉ m'.trace) :
    SrcFrame srcD sid m m' := by
  have keyL : ∀ {mm mm' : Machine},
      (∃ l, mm'.trace = mm.trace ++ l) →
      (∀ d s, ¬(dstD = d ∧ sid = s) → getJsonl mm'.fs d s = getJsonl mm.fs d s) →
      (Event.deleteLog dstD sid ∉ mm'.trace →
        getJsonl mm'.fs dstD sid = getJsonl mm.fs dstD sid) →
      Event.deleteLog srcD sid ∉ mm'.trace →
      getJsonl mm'.fs srcD sid = getJsonl mm.fs srcD sid := by
    intro mm mm' _ hne hhit hno
    by_cases hx : dstD = srcD
    · subst hx
      exact hhit hno
    · exact hne srcD sid (fun hc => hx hc.1)
  have keyT : ∀ {mm mm' : Machine},
      (∃ l, mm'.trace = mm.trace ++ l) →
      (∀ d s, ¬(dstD = d ∧ sid = s) → getSubdir mm'.fs d s = getSubdir mm.fs d s) →
      (Event.deleteTree dstD sid ∉ mm'.trace →
        getSubdir mm'.fs dstD sid = getSubdir mm.fs dstD sid) →
      Event.deleteTree srcD sid ∉ mm'.trace →
      getSubdir mm'.fs srcD sid = getSubdir mm.fs srcD sid := by
    intro mm mm' _ hne hhit hno
    by_cases hx : dstD = srcD
    · subst hx
      exact hhit hno
    · exact hne srcD sid (fun hc => hx hc.1)
  unfold rollbackPhase at h
  rcases andThen_cases h with h | ⟨mA, hA, h⟩
  · obtain ⟨htr, hsub, hne, hhit⟩ := deleteLogStep_frame (Or.inr h)
    exact ⟨keyL htr hne hhit hnoL, hsub srcD sid, htr⟩
  · rcases andThen_cases h with h | ⟨mB, hB, h⟩
    · obtain ⟨⟨l₂, htr₂⟩, hjs₂, hne₂, hhit₂⟩ := deleteTreeStep_frame (Or.inr h)
      have hnoLA : Event.deleteLog srcD sid ∉ mA.trace := by
        intro hx
        exact hnoL (by rw [htr₂]; exact List.mem_append_left _ hx)
      obtain ⟨htr₁, hsub₁, hne₁, hhit₁⟩ := deleteLogStep_frame (Or.inl hA)
      refine SrcFrame.trans ⟨keyL htr₁ hne₁ hhit₁ hnoLA, hsub₁ srcD sid, htr₁⟩ ?_
      exact ⟨hjs₂ srcD sid, keyT ⟨l₂, htr₂⟩ hne₂ hhit₂ hnoT, l₂, htr₂⟩
    · have fSave : SrcFrame srcD sid mB m' := saveIndexStep_frame srcD sid h
      obtain ⟨lS, htrS⟩ := fSave.2.2
      have hnoLB : Event.deleteLog srcD sid ∉ mB.trace := fun hx =>
        hnoL (by rw [htrS]; exact List.mem_append_left _ hx)
      have hnoTB : Event.deleteTree srcD sid ∉ mB.trace := fun hx =>
        hnoT (by rw [htrS]; exact List.mem_append_left _ hx)
      obtain ⟨⟨l₂, htr₂⟩, hjs₂, hne₂, hhit₂⟩ := deleteTreeStep_frame (Or.inl hB)
      have hnoLA : Event.deleteLog srcD sid ∉ mA.trace := fun hx =>
        hnoLB (by rw [htr₂]; exact List.mem_append_left _ hx)
      obtain ⟨htr₁, hsub₁, hne₁, hhit₁⟩ := deleteLogStep_frame (Or.inl hA)
      refine SrcFrame.trans ⟨keyL htr₁ hne₁ hhit₁ hnoLA, hsub₁ srcD sid, htr₁⟩
        (SrcFrame.trans
          ⟨hjs₂ srcD sid, keyT ⟨l₂, htr₂⟩ hne₂ hhit₂ hnoTB, l₂, htr₂⟩ fSave)


/-! ## C1 (amended): source artifacts intact when no source deletion ran -/

/-- C1, amended — For every failure that triggers rollback in which no
source-artifact deletion had yet been performed (that is, any exception
raised from the staging/copy phase up to and including the index commits —
before step 8 deleted anything), after rollback completes the source log
file and the source auxiliary directory are in their exact pre-move state.
The original claim extended this to failures during step 8 itself, which
is refuted by `move_session_step8_failure_loses_source_log`: there the
source log file is already deleted when the rollback runs.  The absence of
a deletion is expressed by the corresponding deletion events (for the
source directory) not appearing in the trace; this also covers the corner
case of colliding path encodings, where rollback's destination deletions
hit the source directory. -/
theorem move_session_rollback_source_intact
    (home session_id source_path dest_path : String) (dry_run : Bool) (now : Nat)
    (sched : Nat → Bool) (fs₀ : FS) (res : MoveResult) (m' : Machine)
    (hm : move_session home session_id source_path dest_path dry_run now sched fs₀ =
      (res, m'))
    (hres : res = MoveResult.rolledBack ∨ res = MoveResult.rollbackFailed)
    (hnoL : Event.deleteLog (get_project_dir home source_path) session_id ∉ m'.trace)
    (hnoT : Event.deleteTree (get_project_dir home source_path) session_id ∉ m'.trace) :
    getJsonl m'.fs (get_project_dir home source_path) session_id =
      getJsonl fs₀ (get_project_dir home source_path) session_id ∧
    getSubdir m'.fs (get_project_dir home source_path) session_id =
      getSubdir fs₀ (get_project_dir home source_path) session_id := by
  simp only [move_session] at hm
  split at hm
  · simp only [Prod.mk.injEq] at hm
    obtain ⟨rfl, rfl⟩ := hm
    rcases hres with h | h <;> simp at h
  · next hsrcEx =>
    rw [Bool.not_eq_true] at hsrcEx
    split at hm
    case h_1 m₁ heq =>
      simp only [Prod.mk.injEq] at hm
      obtain ⟨rfl, rfl⟩ := hm
      rcases hres with h | h <;> simp at h
    case h_2 m₁ heq =>
      have f₀ : SrcFrame (get_project_dir home source_path) session_id
          { fs := fs₀, trace := [], ops := 0 } m₁ := by
        split at heq
        · next hcond =>
          simp only [Bool.and_eq_true, Option.isNone_iff_eq_none] at hcond
          have hneq : get_project_dir home dest_path ≠ get_project_dir home source_path := by
            intro hx
            rw [← hx, hcond.1] at hsrcEx
            simp at hsrcEx
          obtain ⟨hfs, htr, -⟩ := attempt_ok heq
          refine ⟨?_, ?_, [_], htr⟩
          · rw [hfs, getJsonl_setDir, if_neg hneq]
          · rw [hfs, getSubdir_setDir, if_neg hneq]
        · simp only [Except.ok.injEq] at heq
          subst heq
          exact SrcFrame.rfl _ _ _
      split at hm
      · simp only [Prod.mk.injEq] at hm
        obtain ⟨rfl, rfl⟩ := hm
        rcases hres with h | h <;> simp at h
      · split at hm
        · simp only [Prod.mk.injEq] at hm
          obtain ⟨rfl, rfl⟩ := hm
          rcases hres with h | h <;> simp at h
        · split at hm
          · simp only [Prod.mk.injEq] at hm
            obtain ⟨rfl, rfl⟩ := hm
            rcases hres with h | h <;> simp at h
          · split at hm
            · simp only [Prod.mk.injEq] at hm
              obtain ⟨rfl, rfl⟩ := hm
              rcases hres with h | h <;> simp at h
            · next m₂ htry =>
              split at hm <;>
              · next m₃ hrb =>
                simp only [Prod.mk.injEq] at hm
                obtain ⟨rfl, rfl⟩ := hm
                have frb : SrcFrame (get_project_dir home source_path) session_id m₂ m₃ :=
                  rollbackPhase_frame _ (by first | exact Or.inl hrb | exact Or.inr hrb)
                    hnoL hnoT
                obtain ⟨lr, htrr⟩ := frb.2.2
                have hnoL₂ : Event.deleteLog (get_project_dir home source_path)
                    session_id ∉ m₂.trace := fun hx =>
                  hnoL (by rw [htrr]; exact List.mem_append_left _ hx)
                have hnoT₂ : Event.deleteTree (get_project_dir home source_path)
                    session_id ∉ m₂.trace := fun hx =>
                  hnoT (by rw [htrr]; exact List.mem_append_left _ hx)
                have ftry : SrcFrame (get_project_dir home source_path) session_id m₁ m₂ :=
                  tryPhase_frame (Or.inr htry) hnoL₂ hnoT₂
                have := (f₀.trans ftry).trans frb
                exact ⟨this.1, this.2.1⟩

/-- Counterexample to C1 as stated: a fault injected into the second
source-artifact deletion of step 8 (the `rmtree` of the auxiliary
directory, the sixth primitive of the run) triggers rollback, and after
rollback completes the source log file no longer exists, even though it
existed before the move. -/
theorem move_session_step8_failure_loses_source_log :
    (move_session "H" "s1" "a" "b" false 30 (fun k => k == 5) exFS).1 =
      MoveResult.rolledBack ∧
    getJsonl exFS (get_project_dir "H" "a") "s1" = some "LOG" ∧
    getJsonl (move_session "H" "s1" "a" "b" false 30 (fun k => k == 5) exFS).2.fs
      (get_project_dir "H" "a") "s1" = none :=
  ⟨rfl, rfl, rfl⟩

/-- Witness for the amended C1: a fault injected into the log-file copy
(before any deletion) triggers rollback and leaves both source artifacts
untouched on a concrete filesystem. -/
theorem move_session_rollback_source_intact_witness :
    ((move_session "H" "s1" "a" "b" false 30 (fun k => k == 0) exFS).1 =
       MoveResult.rolledBack ∧
     Event.deleteLog (get_project_dir "H" "a") "s1" ∉
       (move_session "H" "s1" "a" "b" false 30 (fun k => k == 0) exFS).2.trace ∧
     Event.deleteTree (get_project_dir "H" "a") "s1" ∉
       (move_session "H" "s1" "a" "b" false 30 (fun k => k == 0) exFS).2.trace) ∧
    (getJsonl (move_session "H" "s1" "a" "b" false 30 (fun k => k == 0) exFS).2.fs
        (get_project_dir "H" "a") "s1" =
      getJsonl exFS (get_project_dir "H" "a") "s1" ∧
     getSubdir (move_session "H" "s1" "a" "b" false 30 (fun k => k == 0) exFS).2.fs
        (get_project_dir "H" "a") "s1" =
      getSubdir exFS (get_project_dir "H" "a") "s1") :=
  ⟨⟨rfl, by decide, by decide⟩,
    move_session_rollback_source_intact "H" "s1" "a" "b" false 30 (fun k => k == 0)
      exFS (move_session "H" "s1" "a" "b" false 30 (fun k => k == 0) exFS).1
      (move_session "H" "s1" "a" "b" false 30 (fun k => k == 0) exFS).2
      rfl (Or.inl rfl) (by decide) (by decide)⟩


/-! ## C2: commit events precede source deletions -/

/-- A trace satisfies the C2 ordering discipline when every deletion of the
source log file or source auxiliary directory is preceded (strictly
earlier in the trace) by a destination index save and, when the session
was found in the source index (`needSrcSave`), also by a source index
save. -/
def sourceDeleteGuarded (tr : List Event) (srcD dstD sid : String)
    (needSrcSave : Bool) : Prop :=
  ∀ i : Nat,
    (tr[i]? = some (Event.deleteLog srcD sid) ∨
     tr[i]? = some (Event.deleteTree srcD sid)) →
    (∃ j, j < i ∧ tr[j]? = some (Event.saveIndex dstD)) ∧
    (needSrcSave = true → ∃ k, k < i ∧ tr[k]? = some (Event.saveIndex srcD))

theorem mem_of_getElem_eq_some {α : Type} (l : List α) (n : Nat) (a : α)
    (h : l[n]? = some a) : a ∈ l := by
  have hn : n < l.length := by
    by_contra hc
    rw [List.getElem?_eq_none (by omega)] at h
    exact absurd h (by simp)
  rw [List.getElem?_eq_getElem hn] at h
  simp only [Option.some.injEq] at h
  subst h
  exact List.getElem_mem hn

theorem getElem_eq_some_of_mem {α : Type} (l : List α) (a : α) (h : a ∈ l) :
    ∃ i : Nat, i < l.length ∧ l[i]? = some a := by
  obtain ⟨i, hi, hv⟩ := List.mem_iff_getElem.mp h
  exact ⟨i, hi, by rw [List.getElem?_eq_getElem hi, hv]⟩

/-- A trace that contains no source deletion at all is trivially
guarded. -/
theorem guarded_of_no_deletes {tr : List Event} {srcD dstD sid : String}
    {needSrcSave : Bool}
    (h : ∀ e ∈ tr, e ≠ Event.deleteLog srcD sid ∧ e ≠ Event.deleteTree srcD sid) :
    sourceDeleteGuarded tr srcD dstD sid needSrcSave := by
  intro i hi
  rcases hi with hi | hi <;>
  · exact absurd (h _ (mem_of_getElem_eq_some tr i _ hi)) (by simp)

/-- A guarded trace stays guarded when events that are no source deletions
are appended after it. -/
theorem guarded_append {tr tr₂ : List Event} {srcD dstD sid : String}
    {needSrcSave : Bool}
    (h : sourceDeleteGuarded tr srcD dstD sid needSrcSave)
    (h₂ : ∀ e ∈ tr₂, e ≠ Event.deleteLog srcD sid ∧ e ≠ Event.deleteTree srcD sid) :
    sourceDeleteGuarded (tr ++ tr₂) srcD dstD sid needSrcSave := by
  intro i hi
  by_cases hlen : i < tr.length
  · have hget : (tr ++ tr₂)[i]? = tr[i]? := by
      rw [List.getElem?_append]
      simp [hlen]
    rw [hget] at hi
    obtain ⟨⟨j, hj, hjv⟩, hsrc⟩ := h i hi
    have hjlen : j < tr.length := by omega
    refine ⟨⟨j, hj, ?_⟩, ?_⟩
    · rw [List.getElem?_append]
      simp [hjlen, hjv]
    · intro hn
      obtain ⟨k, hk, hkv⟩ := hsrc hn
      have hklen : k < tr.length := by omega
      refine ⟨k, hk, ?_⟩
      rw [List.getElem?_append]
      simp [hklen, hkv]
  · have hget : (tr ++ tr₂)[i]? = tr₂[i - tr.length]? := by
      rw [List.getElem?_append_right (by omega)]
    rw [hget] at hi
    rcases hi with hi | hi <;>
    · exact absurd (h₂ _ (mem_of_getElem_eq_some tr₂ _ _ hi)) (by simp)

/-- A guarded trace stays guarded when an event that is no source deletion
is prepended in front of it. -/
theorem guarded_cons {tr : List Event} {srcD dstD sid : String}
    {needSrcSave : Bool} {e : Event}
    (he : e ≠ Event.deleteLog srcD sid ∧ e ≠ Event.deleteTree srcD sid)
    (h : sourceDeleteGuarded tr srcD dstD sid needSrcSave) :
    sourceDeleteGuarded (e :: tr) srcD dstD sid needSrcSave := by
  intro i hi
  match i with
  | 0 =>
    simp only [List.getElem?_cons_zero, Option.some.injEq] at hi
    rcases hi with hi | hi <;> simp [hi] at he
  | Nat.succ n =>
    simp only [List.getElem?_cons_succ] at hi
    obtain ⟨⟨j, hj, hjv⟩, hsrc⟩ := h n hi
    refine ⟨⟨j + 1, by omega, by simpa using hjv⟩, ?_⟩
    intro hn
    obtain ⟨k, hk, hkv⟩ := hsrc hn
    exact ⟨k + 1, by omega, by simpa using hkv⟩

/-- If a prefix of a trace contains the required index saves and no source
deletions, the whole trace is guarded regardless of what follows. -/
theorem guarded_of_structure {x y : List Event} {srcD dstD sid : String}
    {needSrcSave : Bool}
    (hx : ∀ e ∈ x, e ≠ Event.deleteLog srcD sid ∧ e ≠ Event.deleteTree srcD sid)
    (hdst : Event.saveIndex dstD ∈ x)
    (hsrc : needSrcSave = true → Event.saveIndex srcD ∈ x) :
    sourceDeleteGuarded (x ++ y) srcD dstD sid needSrcSave := by
  intro i hi
  by_cases hlen : i < x.length
  · have hget : (x ++ y)[i]? = x[i]? := by
      rw [List.getElem?_append]
      simp [hlen]
    rw [hget] at hi
    rcases hi with hi | hi <;>
    · exact absurd (hx _ (mem_of_getElem_eq_some x i _ hi)) (by simp)
  · obtain ⟨j, hjlen, hjv⟩ := getElem_eq_some_of_mem x _ hdst
    refine ⟨⟨j, by omega, ?_⟩, ?_⟩
    · rw [List.getElem?_append]
      simp [hjlen, hjv]
    · intro hn
      obtain ⟨k, hklen, hkv⟩ := getElem_eq_some_of_mem x _ (hsrc hn)
      refine ⟨k, by omega, ?_⟩
      rw [List.getElem?_append]
      simp [hklen, hkv]


theorem copyLogStep_out {sched : Nat → Bool} {srcD dstD sid : String} {m : Machine}
    {r : Except Machine Machine} (h : copyLogStep sched srcD dstD sid m = r) :
    (∃ m₁ l, r = Except.ok m₁ ∧ m₁.trace = m.trace ++ l ∧
      ∀ e ∈ l, e = Event.copyLog dstD sid) ∨
    (∃ m₁, r = Except.error m₁ ∧ m₁.trace = m.trace) := by
  unfold copyLogStep at h
  split at h
  · exact Or.inl ⟨m, [], h.symm, by simp, by simp⟩
  · split at h
    · exact Or.inr ⟨_, h.symm, rfl⟩
    · unfold attempt at h
      split at h
      · exact Or.inr ⟨_, h.symm, rfl⟩
      · exact Or.inl ⟨_, [Event.copyLog dstD sid], h.symm, rfl, by simp⟩

theorem copyTreeStep_out {sched : Nat → Bool} {srcD dstD sid : String} {m : Machine}
    {r : Except Machine Machine} (h : copyTreeStep sched srcD dstD sid m = r) :
    (∃ m₁ l, r = Except.ok m₁ ∧ m₁.trace = m.trace ++ l ∧
      ∀ e ∈ l, e = Event.copyTree dstD sid) ∨
    (∃ m₁, r = Except.error m₁ ∧ m₁.trace = m.trace) := by
  unfold copyTreeStep at h
  split at h
  · exact Or.inl ⟨m, [], h.symm, by simp, by simp⟩
  · split at h
    · exact Or.inr ⟨_, h.symm, rfl⟩
    · unfold attempt at h
      split at h
      · exact Or.inr ⟨_, h.symm, rfl⟩
      · exact Or.inl ⟨_, [Event.copyTree dstD sid], h.symm, rfl, by simp⟩

theorem saveIndexStep_out {sched : Nat → Bool} {dir : String} {idx : SessionsIndex}
    {m : Machine} {r : Except Machine Machine} (h : saveIndexStep sched dir idx m = r) :
    (∃ m₁, r = Except.ok m₁ ∧ m₁.trace = m.trace ++ [Event.saveIndex dir]) ∨
    (∃ m₁, r = Except.error m₁ ∧ m₁.trace = m.trace) := by
  unfold saveIndexStep attempt at h
  split at h
  · exact Or.inr ⟨_, h.symm, rfl⟩
  · exact Or.inl ⟨_, h.symm, rfl⟩

theorem deleteLogStep_out {sched : Nat → Bool} {D sid : String} {m : Machine}
    {r : Except Machine Machine} (h : deleteLogStep sched D sid m = r) :
    (∃ m₁ l, r = Except.ok m₁ ∧ m₁.trace = m.trace ++ l ∧
      ∀ e ∈ l, e = Event.deleteLog D sid) ∨
    (∃ m₁, r = Except.error m₁ ∧ m₁.trace = m.trace) := by
  unfold deleteLogStep at h
  split at h
  · exact Or.inl ⟨m, [], h.symm, by simp, by simp⟩
  · unfold attempt at h
    split at h
    · exact Or.inr ⟨_, h.symm, rfl⟩
    · exact Or.inl ⟨_, [Event.deleteLog D sid], h.symm, rfl, by simp⟩

theorem deleteTreeStep_out {sched : Nat → Bool} {D sid : String} {m : Machine}
    {r : Except Machine Machine} (h : deleteTreeStep sched D sid m = r) :
    (∃ m₁ l, r = Except.ok m₁ ∧ m₁.trace = m.trace ++ l ∧
      ∀ e ∈ l, e = Event.deleteTree D sid) ∨
    (∃ m₁, r = Except.error m₁ ∧ m₁.trace = m.trace) := by
  unfold deleteTreeStep at h
  split at h
  · exact Or.inl ⟨m, [], h.symm, by simp, by simp⟩
  · unfold attempt at h
    split at h
    · exact Or.inr ⟨_, h.symm, rfl⟩
    · exact Or.inl ⟨_, [Event.deleteTree D sid], h.symm, rfl, by simp⟩


/-- Trace discipline of the deletion phase (steps 5a/5b of the try block):
starting from a trace whose appended part `x` contains the required index
saves and no source deletions, running the two source deletions keeps the
whole appended trace guarded. -/
theorem deletePhase_guarded_tail {sched : Nat → Bool} {srcD dstD sid : String}
    {mbase mD m' : Machine} {x : List Event} {needSrcSave : Bool}
    (htrD : mD.trace = mbase.trace ++ x)
    (hno : ∀ e ∈ x, e ≠ Event.deleteLog srcD sid ∧ e ≠ Event.deleteTree srcD sid)
    (hdst : Event.saveIndex dstD ∈ x)
    (hsrc : needSrcSave = true → Event.saveIndex srcD ∈ x)
    (h : andThen (deleteLogStep sched srcD sid mD)
        (fun m₅ => deleteTreeStep sched srcD sid m₅) = Except.ok m' ∨
      andThen (deleteLogStep sched srcD sid mD)
        (fun m₅ => deleteTreeStep sched srcD sid m₅) = Except.error m') :
    ∃ l, m'.trace = mbase.trace ++ l ∧
      sourceDeleteGuarded l srcD dstD sid needSrcSave := by
  rcases andThen_cases h with h | ⟨mE, hE, h⟩
  · rcases deleteLogStep_out h with ⟨m₅, l, he, -, -⟩ | ⟨m₅, he, htr⟩
    · exact absurd he (by simp)
    · simp only [Except.error.injEq] at he
      subst he
      exact ⟨x, by simp [htr, htrD], guarded_of_no_deletes hno⟩
  · rcases deleteLogStep_out hE with ⟨m₅, l₅, he₅, htr₅, hev₅⟩ | ⟨m₅, he₅, -⟩
    swap
    · exact absurd he₅ (by simp)
    simp only [Except.ok.injEq] at he₅
    subst he₅
    have htrE : mE.trace = mbase.trace ++ (x ++ l₅) := by
      rw [htr₅, htrD]
      simp [List.append_assoc]
    rcases h with h | h
    · rcases deleteTreeStep_out h with ⟨m₆, l₆, he₆, htr₆, hev₆⟩ | ⟨m₆, he₆, -⟩
      · simp only [Except.ok.injEq] at he₆
        subst he₆
        refine ⟨x ++ (l₅ ++ l₆), ?_, guarded_of_structure hno hdst hsrc⟩
        rw [htr₆, htrE]
        simp [List.append_assoc]
      · exact absurd he₆ (by simp)
    · rcases deleteTreeStep_out h with ⟨m₆, l₆, he₆, -, -⟩ | ⟨m₆, he₆, htr₆⟩
      · exact absurd he₆ (by simp)
      · simp only [Except.error.injEq] at he₆
        subst he₆
        refine ⟨x ++ l₅, ?_, guarded_of_structure hno hdst hsrc⟩
        rw [htr₆, htrE]


/-- Trace discipline of the whole try block: the events it appends are
guarded — any source deletion it performs comes after the destination
index save and, when a source index rewrite is staged, after the source
index save. -/
theorem tryPhase_guarded {sched : Nat → Bool} {srcD dstD sid : String}
    {didx : SessionsIndex} {sidxOpt : Option SessionsIndex} {m m' : Machine}
    (h : tryPhase sched srcD dstD sid didx sidxOpt m = Except.ok m' ∨
      tryPhase sched srcD dstD sid didx sidxOpt m = Except.error m') :
    ∃ l, m'.trace = m.trace ++ l ∧
      sourceDeleteGuarded l srcD dstD sid sidxOpt.isSome := by
  unfold tryPhase at h
  rcases andThen_cases h with h | ⟨mA, hA, h⟩
  · rcases copyLogStep_out h with ⟨m₁, l, he, -, -⟩ | ⟨m₁, he, htr⟩
    · exact absurd he (by simp)
    · simp only [Except.error.injEq] at he
      subst he
      exact ⟨[], by simp [htr], guarded_of_no_deletes (by simp)⟩
  · rcases copyLogStep_out hA with ⟨m₁, l₁, he₁, htr₁, hev₁⟩ | ⟨m₁, he₁, -⟩
    swap
    · exact absurd he₁ (by simp)
    simp only [Except.ok.injEq] at he₁
    subst he₁
    have hno₁ : ∀ e ∈ l₁, e ≠ Event.deleteLog srcD sid ∧ e ≠ Event.deleteTree srcD sid := by
      intro e he
      rw [hev₁ e he]
      simp
    rcases andThen_cases h with h | ⟨mB, hB, h⟩
    · rcases copyTreeStep_out h with ⟨m₂, l, he, -, -⟩ | ⟨m₂, he, htr⟩
      · exact absurd he (by simp)
      · simp only [Except.error.injEq] at he
        subst he
        exact ⟨l₁, by simp [htr, htr₁], guarded_of_no_deletes hno₁⟩
    · rcases copyTreeStep_out hB with ⟨m₂, l₂, he₂, htr₂, hev₂⟩ | ⟨m₂, he₂, -⟩
      swap
      · exact absurd he₂ (by simp)
      simp only [Except.ok.injEq] at he₂
      subst he₂
      have hno₂ : ∀ e ∈ l₁ ++ l₂,
          e ≠ Event.deleteLog srcD sid ∧ e ≠ Event.deleteTree srcD sid := by
        intro e he
        rcases List.mem_append.mp he with he | he
        · exact hno₁ e he
        · rw [hev₂ e he]
          simp
      have htrB : mB.trace = m.trace ++ (l₁ ++ l₂) := by
        rw [htr₂, htr₁, List.append_assoc]
      rcases andThen_cases h with h | ⟨mC, hC, h⟩
      · rcases saveIndexStep_out h with ⟨m₃, he, -⟩ | ⟨m₃, he, htr⟩
        · exact absurd he (by simp)
        · simp only [Except.error.injEq] at he
          subst he
          exact ⟨l₁ ++ l₂, by simp [htr, htrB], guarded_of_no_deletes hno₂⟩
      · rcases saveIndexStep_out hC with ⟨m₃, he₃, htr₃⟩ | ⟨m₃, he₃, -⟩
        swap
        · exact absurd he₃ (by simp)
        simp only [Except.ok.injEq] at he₃
        subst he₃
        have htrC : mC.trace = m.trace ++ (l₁ ++ l₂ ++ [Event.saveIndex dstD]) := by
          rw [htr₃, htrB]
          simp [List.append_assoc]
        have hno₃ : ∀ e ∈ l₁ ++ l₂ ++ [Event.saveIndex dstD],
            e ≠ Event.deleteLog srcD sid ∧ e ≠ Event.deleteTree srcD sid := by
          intro e he
          rcases List.mem_append.mp he with he | he
          · exact hno₂ e he
          · simp only [List.mem_singleton] at he
            subst he
            simp
        have hdst₃ : Event.saveIndex dstD ∈ l₁ ++ l₂ ++ [Event.saveIndex dstD] := by
          simp
        cases sidxOpt with
        | none =>
          rcases andThen_cases h with h | ⟨mD, hD, h⟩
          · exact absurd h (by simp)
          · simp only [Except.ok.injEq] at hD
            subst hD
            exact deletePhase_guarded_tail htrC hno₃ hdst₃ (by simp) h
        | some sidx =>
          rcases andThen_cases h with h | ⟨mD, hD, h⟩
          · rcases saveIndexStep_out h with ⟨m₄, he, -⟩ | ⟨m₄, he, htr⟩
            · exact absurd he (by simp)
            · simp only [Except.error.injEq] at he
              subst he
              exact ⟨l₁ ++ l₂ ++ [Event.saveIndex dstD], by simp [htr, htrC],
                guarded_of_no_deletes hno₃⟩
          · rcases saveIndexStep_out hD with ⟨m₄, he₄, htr₄⟩ | ⟨m₄, he₄, -⟩
            swap
            · exact absurd he₄ (by simp)
            simp only [Except.ok.injEq] at he₄
            subst he₄
            have htrD : mD.trace = m.trace ++
                (l₁ ++ l₂ ++ [Event.saveIndex dstD] ++ [Event.saveIndex srcD]) := by
              rw [htr₄, htrC]
              simp [List.append_assoc]
            have hno₄ : ∀ e ∈ l₁ ++ l₂ ++ [Event.saveIndex dstD] ++ [Event.saveIndex srcD],
                e ≠ Event.deleteLog srcD sid ∧ e ≠ Event.deleteTree srcD sid := by
              intro e he
              rcases List.mem_append.mp he with he | he
              · exact hno₃ e he
              · simp only [List.mem_singleton] at he
                subst he
                simp
            exact deletePhase_guarded_tail htrD hno₄ (by simp) (fun _ => by simp) h


/-- The rollback block only appends destination-directory events: deletion
of the destination log file, deletion of the destination auxiliary
directory, or the destination index save. -/
theorem rollbackPhase_events {sched : Nat → Bool} {dstD sid : String} {m m' : Machine}
    (h : rollbackPhase sched dstD sid m = Except.ok m' ∨
      rollbackPhase sched dstD sid m = Except.error m') :
    ∃ l, m'.trace = m.trace ++ l ∧
      ∀ e ∈ l, e = Event.deleteLog dstD sid ∨ e = Event.deleteTree dstD sid ∨
        e = Event.saveIndex dstD := by
  unfold rollbackPhase at h
  rcases andThen_cases h with h | ⟨mA, hA, h⟩
  · rcases deleteLogStep_out h with ⟨m₁, l, he, -, -⟩ | ⟨m₁, he, htr⟩
    · exact absurd he (by simp)
    · simp only [Except.error.injEq] at he
      subst he
      exact ⟨[], by simp [htr], by simp⟩
  · rcases deleteLogStep_out hA with ⟨m₁, l₁, he₁, htr₁, hev₁⟩ | ⟨m₁, he₁, -⟩
    swap
    · exact absurd he₁ (by simp)
    simp only [Except.ok.injEq] at he₁
    subst he₁
    rcases andThen_cases h with h | ⟨mB, hB, h⟩
    · rcases deleteTreeStep_out h with ⟨m₂, l, he, -, -⟩ | ⟨m₂, he, htr⟩
      · exact absurd he (by simp)
      · simp only [Except.error.injEq] at he
        subst he
        refine ⟨l₁, by simp [htr, htr₁], ?_⟩
        intro e he
        exact Or.inl (hev₁ e he)
    · rcases deleteTreeStep_out hB with ⟨m₂, l₂, he₂, htr₂, hev₂⟩ | ⟨m₂, he₂, -⟩
      swap
      · exact absurd he₂ (by simp)
      simp only [Except.ok.injEq] at he₂
      subst he₂
      have htrB : mB.trace = m.trace ++ (l₁ ++ l₂) := by
        rw [htr₂, htr₁, List.append_assoc]
      have hevB : ∀ e ∈ l₁ ++ l₂, e = Event.deleteLog dstD sid ∨
          e = Event.deleteTree dstD sid ∨ e = Event.saveIndex dstD := by
        intro e he
        rcases List.mem_append.mp he with he | he
        · exact Or.inl (hev₁ e he)
        · exact Or.inr (Or.inl (hev₂ e he))
      rcases h with h | h
      · rcases saveIndexStep_out h with ⟨m₃, he₃, htr₃⟩ | ⟨m₃, he₃, -⟩
        · simp only [Except.ok.injEq] at he₃
          subst he₃
          refine ⟨l₁ ++ l₂ ++ [Event.saveIndex dstD], ?_, ?_⟩
          · rw [htr₃, htrB]
            simp [List.append_assoc]
          · intro e he
            rcases List.mem_append.mp he with he | he
            · exact hevB e he
            · simp only [List.mem_singleton] at he
              subst he
              simp
        · exact absurd he₃ (by simp)
      · rcases saveIndexStep_out h with ⟨m₃, he₃, -⟩ | ⟨m₃, he₃, htr₃⟩
        · exact absurd he₃ (by simp)
        · simp only [Except.error.injEq] at he₃
          subst he₃
          exact ⟨l₁ ++ l₂, by rw [htr₃, htrB], hevB⟩


/-- C2, amended — In every non-dry-run execution of the move in which the
source and destination project paths encode to distinct directories, the
source log file and the source auxiliary directory are deleted only after
the destination index write has completed successfully and, when the
session was found in the source index, after the source index write has
also completed; no deletion of a source artifact ever precedes either
index commit.  Without the distinctness hypothesis the claim is refuted by
`move_session_aliased_deletes_source_before_commit`. -/
theorem move_session_commits_precede_source_deletes
    (home session_id source_path dest_path : String) (now : Nat) (sched : Nat → Bool)
    (fs₀ : FS) (res : MoveResult) (m' : Machine)
    (hne : get_project_dir home source_path ≠ get_project_dir home dest_path)
    (hm : move_session home session_id source_path dest_path false now sched fs₀ =
      (res, m')) :
    sourceDeleteGuarded m'.trace (get_project_dir home source_path)
      (get_project_dir home dest_path) session_id
      (find_session_in_index (load_sessions_index
        (getDir fs₀ (get_project_dir home source_path)) none) session_id).isSome := by
  have hne' : get_project_dir home dest_path ≠ get_project_dir home source_path :=
    fun h => hne h.symm
  have hnds : ∀ e, (e = Event.deleteLog (get_project_dir home dest_path) session_id ∨
        e = Event.deleteTree (get_project_dir home dest_path) session_id ∨
        e = Event.saveIndex (get_project_dir home dest_path)) →
      e ≠ Event.deleteLog (get_project_dir home source_path) session_id ∧
      e ≠ Event.deleteTree (get_project_dir home source_path) session_id := by
    intro e he
    rcases he with rfl | rfl | rfl
    · refine ⟨?_, by simp⟩
      intro hc
      rw [Event.deleteLog.injEq] at hc
      exact hne' hc.1
    · refine ⟨by simp, ?_⟩
      intro hc
      rw [Event.deleteTree.injEq] at hc
      exact hne' hc.1
    · simp
  simp only [move_session, Bool.false_eq_true, Bool.not_false, Bool.and_true,
    if_false] at hm
  split at hm
  · simp only [Prod.mk.injEq] at hm
    obtain ⟨rfl, rfl⟩ := hm
    exact guarded_of_no_deletes (by simp)
  · next hsrcEx =>
    rw [Bool.not_eq_true] at hsrcEx
    split at hm
    case h_1 m₁ heq =>
      have htr : m₁.trace = [] := by
        split at heq
        · unfold attempt at heq
          split at heq
          · simp only [Except.error.injEq] at heq
            subst heq
            rfl
          · exact absurd heq (by simp)
        · exact absurd heq (by simp)
      simp only [Prod.mk.injEq] at hm
      obtain ⟨rfl, rfl⟩ := hm
      rw [htr]
      exact guarded_of_no_deletes (by simp)
    case h_2 m₁ heq =>
      have hm₁ : getDir m₁.fs (get_project_dir home source_path) =
            getDir fs₀ (get_project_dir home source_path) ∧
          (m₁.trace = [] ∨
            m₁.trace = [Event.mkdirDest (get_project_dir home dest_path)]) := by
        split at heq
        · obtain ⟨hfs, htr, -⟩ := attempt_ok heq
          refine ⟨by rw [hfs, getDir_setDir, if_neg hne'], Or.inr (by rw [htr]; rfl)⟩
        · simp only [Except.ok.injEq] at heq
          subst heq
          exact ⟨rfl, Or.inl rfl⟩
      have hm₁notdel : ∀ e ∈ m₁.trace,
          e ≠ Event.deleteLog (get_project_dir home source_path) session_id ∧
          e ≠ Event.deleteTree (get_project_dir home source_path) session_id := by
        rcases hm₁.2 with htr | htr <;> rw [htr] <;> simp
      rw [hm₁.1] at hm
      split at hm
      · simp only [Prod.mk.injEq] at hm
        obtain ⟨rfl, rfl⟩ := hm
        exact guarded_of_no_deletes hm₁notdel
      · next session_idx session_data heq₂ =>
        have hidx : session_idx.isSome =
            (find_session_in_index (load_sessions_index
              (getDir fs₀ (get_project_dir home source_path)) none)
              session_id).isSome := by
          cases hf : find_session_in_index (load_sessions_index
              (getDir fs₀ (get_project_dir home source_path)) none) session_id with
          | none =>
            rw [hf] at heq₂
            simp only [] at heq₂
            split at heq₂
            · simp only [Option.some.injEq, Prod.mk.injEq] at heq₂
              rw [← heq₂.1]
              rfl
            · exact absurd heq₂ (by simp)
          | some p =>
            obtain ⟨i, e⟩ := p
            rw [hf] at heq₂
            simp only [Option.some.injEq, Prod.mk.injEq] at heq₂
            rw [← heq₂.1]
            rfl
        split at hm
        · simp only [Prod.mk.injEq] at hm
          obtain ⟨rfl, rfl⟩ := hm
          exact guarded_of_no_deletes hm₁notdel
        · split at hm
          · next m₂ htry =>
            simp only [Prod.mk.injEq] at hm
            obtain ⟨rfl, rfl⟩ := hm
            obtain ⟨l, htr, hg⟩ := tryPhase_guarded (Or.inl htry)
            rw [Option.isSome_map', hidx] at hg
            rw [htr]
            rcases hm₁.2 with htr₁ | htr₁ <;> rw [htr₁]
            · simpa using hg
            · rw [List.singleton_append]
              exact guarded_cons (by simp) hg
          · next m₂ htry =>
            split at hm <;>
            · next m₃ hrb =>
              simp only [Prod.mk.injEq] at hm
              obtain ⟨rfl, rfl⟩ := hm
              obtain ⟨l, htr, hg⟩ := tryPhase_guarded (Or.inr htry)
              rw [Option.isSome_map', hidx] at hg
              obtain ⟨l₂, htr₂, hev₂⟩ := rollbackPhase_events
                (by first | exact Or.inl hrb | exact Or.inr hrb)
              have hg₂ := guarded_append hg (fun e he => hnds e (hev₂ e he))
              rw [htr₂, htr]
              rcases hm₁.2 with htr₁ | htr₁ <;> rw [htr₁]
              · simpa using hg₂
              · rw [List.singleton_append, List.cons_append]
                exact guarded_cons (by simp) hg₂


/-- A filesystem holding the single (shared) directory that both project
paths `/a/b` and `/a.b` encode to, with an unindexed session log `u1`. -/
def exFSAlias : FS :=
  [(get_project_dir "H" "/a/b",
    { indexFile := none, jsonl := [("u1", "LOG")], subdir := [] })]

/-- Counterexample to C2 as stated: the project paths `/a/b` and `/a.b`
are distinct but encode to the same directory.  Moving the unindexed
session `u1` between them makes the log-file copy raise (same file), and
rollback then deletes the destination log file — which IS the source log
file — before any index write has completed: the final trace is
`[deleteLog, saveIndex]`, the source log file is gone, and the trace
violates the ordering discipline. -/
theorem move_session_aliased_deletes_source_before_commit :
    encode_path "/a/b" = encode_path "/a.b" ∧
    getJsonl exFSAlias (get_project_dir "H" "/a/b") "u1" = some "LOG" ∧
    (move_session "H" "u1" "/a/b" "/a.b" false 30 (fun _ => false) exFSAlias).1 =
      MoveResult.rolledBack ∧
    getJsonl (move_session "H" "u1" "/a/b" "/a.b" false 30 (fun _ => false)
      exFSAlias).2.fs (get_project_dir "H" "/a/b") "u1" = none ∧
    (move_session "H" "u1" "/a/b" "/a.b" false 30 (fun _ => false) exFSAlias).2.trace =
      [Event.deleteLog (get_project_dir "H" "/a.b") "u1",
       Event.saveIndex (get_project_dir "H" "/a.b")] ∧
    ¬ sourceDeleteGuarded
        (move_session "H" "u1" "/a/b" "/a.b" false 30 (fun _ => false) exFSAlias).2.trace
        (get_project_dir "H" "/a/b") (get_project_dir "H" "/a.b") "u1"
        (find_session_in_index (load_sessions_index
          (getDir exFSAlias (get_project_dir "H" "/a/b")) none) "u1").isSome := by
  refine ⟨rfl, rfl, rfl, rfl, rfl, ?_⟩
  intro h
  obtain ⟨⟨j, hj, -⟩, -⟩ := h 0 (Or.inl rfl)
  exact absurd hj (Nat.not_lt_zero j)

/-- Witness for the amended C2: the concrete successful move of `s1` from
project `a` to project `b` (distinct encodings) satisfies the ordering
discipline. -/
theorem move_session_commits_precede_source_deletes_witness :
    get_project_dir "H" "a" ≠ get_project_dir "H" "b" ∧
    sourceDeleteGuarded
      (move_session "H" "s1" "a" "b" false 30 (fun _ => false) exFS).2.trace
      (get_project_dir "H" "a") (get_project_dir "H" "b") "s1"
      (find_session_in_index (load_sessions_index
        (getDir exFS (get_project_dir "H" "a")) none) "s1").isSome :=
  ⟨by decide,
    move_session_commits_precede_source_deletes "H" "s1" "a" "b" 30 (fun _ => false)
      exFS (move_session "H" "s1" "a" "b" false 30 (fun _ => false) exFS).1
      (move_session "H" "s1" "a" "b" false 30 (fun _ => false) exFS).2
      (by decide) rfl⟩

end MoveChat
